import Mathlib

/-!
# fsnotify2: the subscription filter of `fsnotify.go`

A shallow embedding of `src/fsnotify.go`: the per-path flag registry
(`Watcher.fsnFlags`), the filter loop `purgeEvents`, the registration calls
`Watch`, `WatchAll`, `WatchAllFlags`, `WatchFlags`, `RemoveWatch`, and the
formatter `FileEvent.String`.

Masks are Go `uint32` values, embedded as natural numbers; the code only
applies bitwise AND and equality to them, so no wrap-around arises.
-/

namespace Fsnotify2

/-! ## Constants (`fsnotify.go`, lines 12-20) -/

/-- The constant `CREATE = 1 << iota`, with `iota = 0`. -/
def CREATE : Nat := 1 <<< 0
/-- The constant `MODIFY`, where `iota = 1`. -/
def MODIFY : Nat := 1 <<< 1
/-- The constant `DELETE`, where `iota = 2`. -/
def DELETE : Nat := 1 <<< 2
/-- The constant `RENAME`, where `iota = 3`. -/
def RENAME : Nat := 1 <<< 3
/-- The constant `FILE_WRITE`, where `iota = 4`. -/
def FILE_WRITE : Nat := 1 <<< 4
/-- The constant `ALL_FLAGS = MODIFY | DELETE | RENAME | CREATE | FILE_WRITE`. -/
def ALL_FLAGS : Nat := MODIFY ||| DELETE ||| RENAME ||| CREATE ||| FILE_WRITE

/-! ## Data model -/

/-- A Go `error` value: `none` is `nil`, `some msg` a non-nil error. -/
abbrev GoError := Option String

/-- Modelled from the spec: the declaration of `FileEvent` lives in the
platform files, which are not part of the sources at hand. An event carries
its path `Name` and the answers of its five predicates `IsCreate`,
`IsModify`, `IsDelete`, `IsRename`, `IsFileWrite` (spec, section 3, "Raw
Change Event"). -/
structure FileEvent where
  Name : String
  IsCreate : Bool
  IsModify : Bool
  IsDelete : Bool
  IsRename : Bool
  IsFileWrite : Bool
  deriving DecidableEq, Repr

/-- The Go map `fsnFlags map[string]uint32`: `none` is an absent key. -/
abbrev Registry := String → Option Nat

/-- A Go map read `m[k]`: the stored value, or the zero value for an absent key. -/
def Registry.get (r : Registry) (k : String) : Nat := (r k).getD 0

/-- A Go map write `m[k] = v`. -/
def Registry.set (r : Registry) (k : String) (v : Nat) : Registry :=
  fun p => if p = k then some v else r p

/-- The Go builtin `delete(m, k)`. -/
def Registry.delete (r : Registry) (k : String) : Registry :=
  fun p => if p = k then none else r p

/-- The registry of a fresh watcher. -/
def Registry.empty : Registry := fun _ => none

/-- An operation on the public channel `w.Event`. -/
inductive ChanOp where
  | send (ev : FileEvent)
  | close
  deriving DecidableEq, Repr

/-- A request made to the platform watch layer. -/
inductive LayerCall where
  | start (path : String)
  | stop (path : String)
  deriving DecidableEq, Repr

/-- The platform watch layer, whose code is not part of the sources at hand:
`watchAllEvents` and `removeWatch` are taken as parameters. The result of a
call may depend on the path and on every request made before it, so that any
sequence of results can be represented. -/
structure WatchLayer where
  watchAllEvents : List LayerCall → String → GoError
  removeWatch : List LayerCall → String → GoError

/-- Modelled from the spec: the declaration of `Watcher` lives in the platform
files, which are not part of the sources at hand. The state holds the registry
`fsnFlags` (spec, section 3), the history of operations performed on the public
channel `Event`, oldest first (spec, section 4.2), and the requests made so far
to the watch layer (spec, section 6). -/
structure Watcher where
  fsnFlags : Registry
  Event : List ChanOp
  calls : List LayerCall

/-! ## `purgeEvents` (`fsnotify.go`, lines 22-65) -/

/-- One iteration of the loop body of `purgeEvents`, lines 25-61. -/
def purgeStep (w : Watcher) (ev : FileEvent) : Watcher :=
  let sendEvent := false
  let fsnFlags := w.fsnFlags.get ev.Name
  let sendEvent := if (fsnFlags &&& CREATE == CREATE) && ev.IsCreate then true else sendEvent
  let sendEvent := if (fsnFlags &&& MODIFY == MODIFY) && ev.IsModify then true else sendEvent
  let sendEvent := if (fsnFlags &&& DELETE == DELETE) && ev.IsDelete then true else sendEvent
  let sendEvent := if (fsnFlags &&& RENAME == RENAME) && ev.IsRename then true else sendEvent
  let sendEvent := if (fsnFlags &&& FILE_WRITE == FILE_WRITE) && ev.IsFileWrite then true
    else sendEvent
  let w := if sendEvent then { w with Event := w.Event ++ [ChanOp.send ev] } else w
  if ev.IsDelete then { w with fsnFlags := w.fsnFlags.delete ev.Name } else w

/-- The `for ev := range w.internalEvent` loop over the events received before
the internal channel is closed. -/
def purgeLoop (w : Watcher) : List FileEvent → Watcher
  | [] => w
  | ev :: rest => purgeLoop (purgeStep w ev) rest

/-- The function `purgeEvents`: the loop, then `close(w.Event)`. -/
def purgeEvents (w : Watcher) (internalEvent : List FileEvent) : Watcher :=
  let w := purgeLoop w internalEvent
  { w with Event := w.Event ++ [ChanOp.close] }

/-! ## Registration calls (`fsnotify.go`, lines 67-113) -/

/-- The function `Watch`, lines 68-73. -/
def Watch (L : WatchLayer) (w : Watcher) (path : String) : Watcher × GoError :=
  let w := { w with fsnFlags := w.fsnFlags.set path ALL_FLAGS }
  ({ w with calls := w.calls ++ [LayerCall.start path] }, L.watchAllEvents w.calls path)

/-- The function `WatchFlags`, lines 98-104. -/
def WatchFlags (L : WatchLayer) (w : Watcher) (path : String) (flags : Nat) :
    Watcher × GoError :=
  let w := { w with fsnFlags := w.fsnFlags.set path flags }
  ({ w with calls := w.calls ++ [LayerCall.start path] }, L.watchAllEvents w.calls path)

/-- The function `RemoveWatch`, lines 107-113. -/
def RemoveWatch (L : WatchLayer) (w : Watcher) (path : String) : Watcher × GoError :=
  let w := { w with fsnFlags := w.fsnFlags.delete path }
  ({ w with calls := w.calls ++ [LayerCall.stop path] }, L.removeWatch w.calls path)

/-! ## Directory traversal

`WatchAll` and `WatchAllFlags` hand a callback to Go's `filepath.Walk`. The
walk is library code; it is embedded below after the library's implementation,
on a snapshot of the file tree. -/

/-- What `os.Lstat` and the directory listing reveal about one entry: an entry
on which `os.Lstat` fails (`gone`), a non-directory, or a directory with the
result of reading it (`readErr`, `nil` on success) and its entries in the
order `Walk` visits them, each with the path under which `Walk` reports it. -/
inductive FileInfo where
  | gone (err : String)
  | file
  | dir (readErr : GoError) (entries : List (String × FileInfo))

mutual
/-- The function `walk` of Go's `path/filepath`. On a non-directory the
callback is called once, with no error. On a directory the listing is read
first and the callback is called once on the directory, with the error of the
listing (`nil` when it succeeded); when the listing failed or the callback
returned an error, the result of the callback is the result of the walk;
otherwise the entries are walked in order. An entry on which `os.Lstat` fails
is reported to the callback once, with that error. The callbacks of this file
return what the watch layer returns, which is never one of the sentinels
`filepath.SkipDir` and `filepath.SkipAll` (error values compared by identity),
so the branches for these sentinels are left out. -/
def walk {σ : Type} (walkFn : σ → String → Option FileInfo → GoError → σ × GoError)
    (path : String) : FileInfo → σ → σ × GoError
  | .gone err, s => walkFn s path none (some err)
  | .file, s => walkFn s path (some .file) none
  | .dir readErr entries, s =>
    match walkFn s path (some (.dir readErr entries)) readErr with
    | (s, err1) =>
      if readErr.isSome || err1.isSome then (s, err1)
      else walkList walkFn entries s
/-- The loop of `walk` over the entries of a directory: the first entry whose
walk, or whose report to the callback after a failed `os.Lstat`, returns a
non-nil error ends the loop with that error. -/
def walkList {σ : Type} (walkFn : σ → String → Option FileInfo → GoError → σ × GoError) :
    List (String × FileInfo) → σ → σ × GoError
  | [], s => (s, none)
  | (p, info) :: rest, s =>
    match walk walkFn p info s with
    | (s, some err) => (s, some err)
    | (s, none) => walkList walkFn rest s
end

/-- The function `filepath.Walk`: when `os.Lstat` fails on the root, the
callback is called once on the root with that error and its result is
returned; otherwise the tree below the root is walked. The argument `lstat` is
the result of `os.Lstat(root)` together with the file tree found below it. -/
def Walk {σ : Type} (root : String) (lstat : Except String FileInfo)
    (walkFn : σ → String → Option FileInfo → GoError → σ × GoError) (s : σ) : σ × GoError :=
  match lstat with
  | .error err => walkFn s root none (some err)
  | .ok info => walk walkFn root info s

/-- The closure `watchFunc` of lines 77-79 and 90-92: it ignores the file
information and the incoming error and calls `w.Watch(path)`. -/
def watchFunc (L : WatchLayer) (w : Watcher) (path : String) (_fi : Option FileInfo)
    (_err : GoError) : Watcher × GoError :=
  Watch L w path

/-- The function `WatchAll`, lines 76-82. -/
def WatchAll (L : WatchLayer) (w : Watcher) (path : String)
    (lstat : Except String FileInfo) : Watcher × GoError :=
  Walk path lstat (watchFunc L) w

/-- The function `WatchAllFlags`, lines 85-95. -/
def WatchAllFlags (L : WatchLayer) (w : Watcher) (path : String) (flags : Nat)
    (lstat : Except String FileInfo) : Watcher × GoError :=
  let w := { w with fsnFlags := w.fsnFlags.set path flags }
  Walk path lstat (watchFunc L) w

/-! ## `FileEvent.String` (`fsnotify.go`, lines 115-145) -/

/-- The text `strconv.Quote` writes for one character: the double quote and the
backslash are preceded by a backslash, every other printable ASCII character
stands for itself. What is written for the remaining characters (control
characters and non-ASCII runes) depends on Go's Unicode tables and is taken as
the parameter `esc`. -/
def quoteRune (esc : Char → String) (c : Char) : String :=
  if c = '"' ∨ c = '\\' then "\\" ++ c.toString
  else if 0x20 ≤ c.toNat ∧ c.toNat < 0x7f then c.toString
  else esc c

/-- The verb `%q` of `fmt.Sprintf` on a string, that is `strconv.Quote`: the
characters of the string, each written by `quoteRune`, between double quotes. -/
def quote (esc : Char → String) (s : String) : String :=
  "\"" ++ String.join (s.toList.map (quoteRune esc)) ++ "\""

/-- The method `FileEvent.String`, lines 117-145. -/
def FileEvent.String (esc : Char → String) (e : FileEvent) : String :=
  let events := ""
  let events := if e.IsCreate then events ++ ("|" ++ "CREATE") else events
  let events := if e.IsDelete then events ++ ("|" ++ "DELETE") else events
  let events := if e.IsModify then events ++ ("|" ++ "MODIFY") else events
  let events := if e.IsFileWrite then events ++ ("|" ++ "FILE_WRITE") else events
  let events := if e.IsRename then events ++ ("|" ++ "RENAME") else events
  let events := if events.utf8ByteSize > 0 then events.drop 1 else events
  quote esc e.Name ++ ": " ++ events

/-! ## Interleavings of the loop with registration calls -/

/-- One atomic action on a watcher: the loop of `purgeEvents` processing an
event, or a registration call made by the user. -/
inductive Op where
  | event (ev : FileEvent)
  | watch (path : String)
  | watchFlags (path : String) (flags : Nat)
  | watchAll (path : String) (lstat : Except String FileInfo)
  | watchAllFlags (path : String) (flags : Nat) (lstat : Except String FileInfo)
  | removeWatch (path : String)

/-- The watcher after one action. -/
def Op.run (L : WatchLayer) (w : Watcher) : Op → Watcher
  | .event ev => purgeStep w ev
  | .watch path => (Watch L w path).1
  | .watchFlags path flags => (WatchFlags L w path flags).1
  | .watchAll path lstat => (WatchAll L w path lstat).1
  | .watchAllFlags path flags lstat => (WatchAllFlags L w path flags lstat).1
  | .removeWatch path => (RemoveWatch L w path).1

/-- The watcher after a sequence of actions. -/
def runOps (L : WatchLayer) (w : Watcher) : List Op → Watcher
  | [] => w
  | op :: rest => runOps L (Op.run L w op) rest

/-! ## Specification vocabulary -/

mutual
/-- The paths on which `walk` calls its callback, in order, when no call of
the callback returns an error. -/
def walkOrder (path : String) : FileInfo → List String
  | .gone _ => [path]
  | .file => [path]
  | .dir (some _) _ => [path]
  | .dir none entries => path :: walkOrderList entries
/-- The paths reported for the entries of a directory, in order. -/
def walkOrderList : List (String × FileInfo) → List String
  | [] => []
  | (p, info) :: rest => walkOrder p info ++ walkOrderList rest
end

/-- The paths on which `Walk` calls its callback, in order, when no call of
the callback returns an error. -/
def WalkOrder (root : String) : Except String FileInfo → List String
  | .error _ => [root]
  | .ok info => walkOrder root info

/-- The call `Watch` applied to the paths of a list in order, up to and including the
first path on which it returns an error. -/
def watchEach (L : WatchLayer) (w : Watcher) : List String → Watcher × GoError
  | [] => (w, none)
  | p :: rest =>
    match Watch L w p with
    | (w, some err) => (w, some err)
    | (w, none) => watchEach L w rest

/-- The watcher `w` after `Watch` has run on every path of `vis`: these paths
hold `ALL_FLAGS`, the other entries are those of `w`, nothing was sent, and one
start request per path was made, in order. -/
def watched (w : Watcher) (vis : List String) : Watcher :=
  { fsnFlags := fun q => if q ∈ vis then some ALL_FLAGS else w.fsnFlags q
    Event := w.Event
    calls := w.calls ++ vis.map LayerCall.start }

/-- The mask `mask` requests one of the categories of the event `ev`: bit 0
is `CREATE`, bit 1 `MODIFY`, bit 2 `DELETE`, bit 3 `RENAME`, bit 4
`FILE_WRITE`. -/
def Requested (mask : Nat) (ev : FileEvent) : Prop :=
  (mask.testBit 0 ∧ ev.IsCreate) ∨ (mask.testBit 1 ∧ ev.IsModify) ∨
  (mask.testBit 2 ∧ ev.IsDelete) ∨ (mask.testBit 3 ∧ ev.IsRename) ∨
  (mask.testBit 4 ∧ ev.IsFileWrite)

instance (mask : Nat) (ev : FileEvent) : Decidable (Requested mask ev) := by
  unfold Requested; infer_instance

/-- The action may register the path `P`: it is a registration call on `P`, or
a recursive one whose traversal reports `P`. -/
def Op.registers (P : String) : Op → Prop
  | .event _ => False
  | .watch path => path = P
  | .watchFlags path _ => path = P
  | .watchAll path lstat => P ∈ WalkOrder path lstat
  | .watchAllFlags path _ lstat => P = path ∨ P ∈ WalkOrder path lstat
  | .removeWatch _ => False

/-! ## Concrete inputs used in examples -/

/-- A watch layer on which every request succeeds. -/
def okLayer : WatchLayer := ⟨fun _ _ => none, fun _ _ => none⟩

/-- A watch layer on which every request fails. -/
def failLayer : WatchLayer :=
  ⟨fun _ _ => some "no space left on device", fun _ _ => some "invalid argument"⟩

/-- A fresh watcher: empty registry, nothing sent, nothing requested. -/
def newWatcher : Watcher := ⟨Registry.empty, [], []⟩

/-- A watcher whose registry holds `MODIFY | DELETE` for "/tmp/x" and the zero
mask for "/tmp/z", and nothing else. -/
def sampleWatcher : Watcher :=
  ⟨fun p => if p = "/tmp/x" then some 6 else if p = "/tmp/z" then some 0 else none, [], []⟩

/-- An event on "/tmp/x" that is a modification and a content write. -/
def writeEvent : FileEvent := ⟨"/tmp/x", false, true, false, false, true⟩

/-- An event on "/tmp/x" that is a deletion. -/
def deleteEvent : FileEvent := ⟨"/tmp/x", false, false, true, false, false⟩

/-- An event on "/tmp/y", a path without entry in `sampleWatcher`, with every
category. -/
def strayEvent : FileEvent := ⟨"/tmp/y", true, true, true, true, true⟩


/-- The result of `os.Lstat` on a directory that exists, is readable and has
no entries: the subtree holds the root alone. -/
def emptyDir : Except String FileInfo := .ok (.dir none [])

/-- A creation-only event on "/dir/a". -/
def createdA : FileEvent := ⟨"/dir/a", true, false, false, false, false⟩

/-- An event on "/dir/a" that is a modification and a content write. -/
def writtenA : FileEvent := ⟨"/dir/a", false, true, false, false, true⟩

/-- The readable directory "/d" with two entries: the directory "/d/a", whose
listing fails, and the file "/d/b". -/
def unreadableTree : Except String FileInfo :=
  .ok (.dir none [("/d/a", .dir (some "permission denied") []), ("/d/b", .file)])

/-- A watch layer whose start request succeeds on every path but "/d/b". -/
def pickyLayer : WatchLayer :=
  ⟨fun _ p => if p = "/d/b" then some "no space left on device" else none, fun _ _ => none⟩

/-! ## The lock of the registry in `purgeEvents` -/

/-- An action of `purgeEvents` that touches the lock `fsnmut`, the map
`fsnFlags` or the public channel. -/
inductive Action where
  | lock
  | unlock
  | mapRead (path : String)
  | mapDelete (path : String)
  | send (ev : FileEvent)
  | close
  deriving DecidableEq, Repr

/-- One iteration of the loop body of `purgeEvents`, lines 25-61, with the
actions it performs, in program order: `Lock` (line 26), the map read (line
27), `Unlock` (line 28), the send (line 51), and `Lock`, `delete`, `Unlock`
(lines 58-60). -/
def purgeStepLocked (w : Watcher) (ev : FileEvent) : Watcher × List Action :=
  let sendEvent := false
  let acts := [Action.lock]
  let fsnFlags := w.fsnFlags.get ev.Name
  let acts := acts ++ [Action.mapRead ev.Name]
  let acts := acts ++ [Action.unlock]
  let sendEvent := if (fsnFlags &&& CREATE == CREATE) && ev.IsCreate then true else sendEvent
  let sendEvent := if (fsnFlags &&& MODIFY == MODIFY) && ev.IsModify then true else sendEvent
  let sendEvent := if (fsnFlags &&& DELETE == DELETE) && ev.IsDelete then true else sendEvent
  let sendEvent := if (fsnFlags &&& RENAME == RENAME) && ev.IsRename then true else sendEvent
  let sendEvent := if (fsnFlags &&& FILE_WRITE == FILE_WRITE) && ev.IsFileWrite then true
    else sendEvent
  let (w, acts) :=
    if sendEvent then ({ w with Event := w.Event ++ [ChanOp.send ev] }, acts ++ [Action.send ev])
    else (w, acts)
  if ev.IsDelete then
    ({ w with fsnFlags := w.fsnFlags.delete ev.Name },
      acts ++ [Action.lock] ++ [Action.mapDelete ev.Name] ++ [Action.unlock])
  else (w, acts)

/-- The loop of `purgeEvents` with the actions of its iterations, in order. -/
def purgeLoopLocked (w : Watcher) : List FileEvent → Watcher × List Action
  | [] => (w, [])
  | ev :: rest =>
    let (w1, acts1) := purgeStepLocked w ev
    let (w2, acts2) := purgeLoopLocked w1 rest
    (w2, acts1 ++ acts2)

/-- The function `purgeEvents` with its actions: those of the loop, then
`close(w.Event)` (line 64). -/
def purgeEventsLocked (w : Watcher) (internalEvent : List FileEvent) :
    Watcher × List Action :=
  let (w, acts) := purgeLoopLocked w internalEvent
  ({ w with Event := w.Event ++ [ChanOp.close] }, acts ++ [Action.close])

/-- Where `purgeEvents` stands with respect to the lock: it does not hold it,
or it holds it and has performed `ops` map operations since taking it. -/
inductive LockState where
  | free
  | held (ops : Nat)
  deriving DecidableEq, Repr

/-- The lock discipline: the lock is taken when free, exactly one map read or
map delete is made while it is held, it is released after that operation, and
the public channel is used only while the lock is free. Any other action is
a violation (`none`). -/
def LockState.step : LockState → Action → Option LockState
  | .free, .lock => some (.held 0)
  | .free, .send _ => some .free
  | .free, .close => some .free
  | .held 0, .mapRead _ => some (.held 1)
  | .held 0, .mapDelete _ => some (.held 1)
  | .held 1, .unlock => some .free
  | _, _ => none

/-- The lock discipline along a sequence of actions. -/
def LockState.run : LockState → List Action → Option LockState
  | s, [] => some s
  | s, a :: rest =>
    match s.step a with
    | none => none
    | some s1 => s1.run rest

/-! ## The slice of `FileEvent.String` -/

/-- The Go slice expression `s[1:]` on a string: a run-time panic (`none`)
when the string is shorter than one byte. The strings sliced in this file
start with the one-byte character `|`. -/
def sliceFrom1 (s : String) : Option String :=
  if 1 ≤ s.utf8ByteSize then some (s.drop 1) else none

/-- The method `FileEvent.String`, lines 117-145, with the slice expression of
line 141 as the partial operation it is in Go: the result is `none` when a
slice out of range is taken. -/
def StringChecked (esc : Char → String) (e : FileEvent) : Option String :=
  let events := ""
  let events := if e.IsCreate then events ++ ("|" ++ "CREATE") else events
  let events := if e.IsDelete then events ++ ("|" ++ "DELETE") else events
  let events := if e.IsModify then events ++ ("|" ++ "MODIFY") else events
  let events := if e.IsFileWrite then events ++ ("|" ++ "FILE_WRITE") else events
  let events := if e.IsRename then events ++ ("|" ++ "RENAME") else events
  match (if events.utf8ByteSize > 0 then sliceFrom1 events else some events) with
  | none => none
  | some events => some (quote esc e.Name ++ ": " ++ events)

/-! ## Further specification vocabulary -/

mutual
/-- No directory listing and no `os.Lstat` fails in the tree: the traversal
itself reports no error. -/
def FileInfo.readable : FileInfo → Bool
  | .gone _ => false
  | .file => true
  | .dir readErr entries => readErr.isNone && readableList entries
/-- No directory listing fails below the entries of a directory. -/
def readableList : List (String × FileInfo) → Bool
  | [] => true
  | (_, info) :: rest => info.readable && readableList rest
end

mutual
/-- The paths of the subtree rooted at `path`: the root, then the paths of
the subtrees of its entries, in order. -/
def subtreePaths (path : String) : FileInfo → List String
  | .gone _ => [path]
  | .file => [path]
  | .dir _ entries => path :: subtreePathsList entries
/-- The paths of the subtrees of the entries of a directory. -/
def subtreePathsList : List (String × FileInfo) → List String
  | [] => []
  | (p, info) :: rest => subtreePaths p info ++ subtreePathsList rest
end

/-- One iteration of `purgeEvents` on the watcher `w` sends the event `ev` on
the public channel. -/
def Forwards (w : Watcher) (ev : FileEvent) : Prop :=
  (purgeStep w ev).Event = w.Event ++ [ChanOp.send ev]

instance (w : Watcher) (ev : FileEvent) : Decidable (Forwards w ev) := by
  unfold Forwards; infer_instance

/-! ## Further concrete inputs -/

/-- The readable directory "/d" with the file "/d/b" and the directory "/d/c",
which holds the file "/d/c/e". -/
def smallTree : FileInfo :=
  .dir none [("/d/b", .file), ("/d/c", .dir none [("/d/c/e", .file)])]

/-- An event on "/tmp/x" for which none of the five predicates holds. -/
def blankEvent : FileEvent := ⟨"/tmp/x", false, false, false, false, false⟩

/-- An event on "/tmp/x" that is a rename. -/
def renameEvent : FileEvent := ⟨"/tmp/x", false, false, false, true, false⟩

/-- The operation on the public channel that an action is, if it is one. -/
def Action.toChanOp : Action → Option ChanOp
  | .send ev => some (ChanOp.send ev)
  | .close => some ChanOp.close
  | _ => none

/-! ## The blocking send of `purgeEvents` -/

/-- What becomes of a run of `purgeEvents`: it returns, leaving the watcher
`w`, or it stays blocked for ever in the send `w.Event <- ev` of line 51, the
watcher being `w` at that moment. -/
inductive Run where
  | returned (w : Watcher)
  | blocked (w : Watcher) (ev : FileEvent)

/-- The run has returned. -/
def Run.isReturned : Run → Bool
  | .returned _ => true
  | .blocked _ _ => false

/-- The watcher at the end of the run, or at the moment it blocks. -/
def Run.watcher : Run → Watcher
  | .returned w => w
  | .blocked w _ => w

/-- The loop of `purgeEvents` when only `recv` sends on the public channel can
complete, that is when its reader receives `recv` events and no more (free
slots of a buffered channel count as receives). An iteration that reaches the
send of line 51 with `recv = 0` blocks there for ever: the iteration does not
end and no later event is processed. -/
def purgeLoopRecv (w : Watcher) (recv : Nat) : List FileEvent → Run
  | [] => .returned w
  | ev :: rest =>
    if Forwards w ev then
      match recv with
      | 0 => .blocked w ev
      | n + 1 => purgeLoopRecv (purgeStep w ev) n rest
    else purgeLoopRecv (purgeStep w ev) recv rest

/-- The function `purgeEvents` when only `recv` sends can complete: the loop,
then `close(w.Event)` if the loop ends. -/
def purgeEventsRecv (w : Watcher) (recv : Nat) (internalEvent : List FileEvent) : Run :=
  match purgeLoopRecv w recv internalEvent with
  | .returned w => .returned { w with Event := w.Event ++ [ChanOp.close] }
  | .blocked w ev => .blocked w ev

/-- A watch layer whose start request fails on a path it was already asked to
watch. -/
def onceLayer : WatchLayer :=
  ⟨fun calls p => if LayerCall.start p ∈ calls then some "file exists" else none,
    fun _ _ => none⟩

/-! ## Lemmas on the filter -/

/-- The test `m & flag == flag` of lines 30-46 for the flag `2 ^ k` reads bit
`k` of the mask. -/
theorem and_pow_beq_eq_testBit (m k : Nat) : (m &&& 2 ^ k == 2 ^ k) = m.testBit k := by
  rw [Nat.and_two_pow]
  cases h : m.testBit k
  · simpa using (Nat.two_pow_pos k).ne
  · simp

/-- The flag `sendEvent` at line 50 is set exactly when the mask read at line
27 requests a category of the event. -/
theorem sendEvent_iff (m : Nat) (ev : FileEvent) :
    (if ((m &&& FILE_WRITE == FILE_WRITE) && ev.IsFileWrite) = true then true
      else if ((m &&& RENAME == RENAME) && ev.IsRename) = true then true
      else if ((m &&& DELETE == DELETE) && ev.IsDelete) = true then true
      else if ((m &&& MODIFY == MODIFY) && ev.IsModify) = true then true
      else if ((m &&& CREATE == CREATE) && ev.IsCreate) = true then true else false) = true
      ↔ Requested m ev := by
  have h0 := and_pow_beq_eq_testBit m 0
  have h1 := and_pow_beq_eq_testBit m 1
  have h2 := and_pow_beq_eq_testBit m 2
  have h3 := and_pow_beq_eq_testBit m 3
  have h4 := and_pow_beq_eq_testBit m 4
  simp only [CREATE, MODIFY, DELETE, RENAME, FILE_WRITE, Requested, Nat.one_shiftLeft,
    h0, h1, h2, h3, h4]
  simp only [Bool.and_eq_true, Bool.if_true_left, Bool.or_eq_true, decide_eq_true_eq,
    Bool.or_false]
  tauto

/-- The three fields of the watcher after one iteration of the loop. -/
theorem purgeStep_eq (w : Watcher) (ev : FileEvent) :
    purgeStep w ev =
      { fsnFlags := if ev.IsDelete then w.fsnFlags.delete ev.Name else w.fsnFlags
        Event := if Requested (w.fsnFlags.get ev.Name) ev then w.Event ++ [ChanOp.send ev]
          else w.Event
        calls := w.calls } := by
  have h := sendEvent_iff (w.fsnFlags.get ev.Name) ev
  unfold purgeStep
  simp only [Bool.false_eq_true, if_false] at h ⊢
  by_cases hr : Requested (w.fsnFlags.get ev.Name) ev
  · rw [if_pos (h.mpr hr), if_pos hr]
    cases ev.IsDelete <;> simp
  · rw [if_neg (fun hc => hr (h.mp hc)), if_neg hr]
    cases ev.IsDelete <;> simp

theorem purgeStep_Event (w : Watcher) (ev : FileEvent) :
    (purgeStep w ev).Event =
      if Requested (w.fsnFlags.get ev.Name) ev then w.Event ++ [ChanOp.send ev]
      else w.Event := by
  rw [purgeStep_eq]

theorem purgeStep_fsnFlags (w : Watcher) (ev : FileEvent) :
    (purgeStep w ev).fsnFlags =
      if ev.IsDelete then w.fsnFlags.delete ev.Name else w.fsnFlags := by
  rw [purgeStep_eq]

theorem purgeStep_calls (w : Watcher) (ev : FileEvent) :
    (purgeStep w ev).calls = w.calls := by
  rw [purgeStep_eq]

/-- The zero mask requests nothing. -/
theorem not_Requested_zero (ev : FileEvent) : ¬ Requested 0 ev := by
  simp [Requested]

/-- An event on a path whose map read gives the zero mask is not sent. -/
theorem purgeStep_Event_of_get_zero (w : Watcher) (ev : FileEvent)
    (h : w.fsnFlags.get ev.Name = 0) : (purgeStep w ev).Event = w.Event := by
  rw [purgeStep_Event, h, if_neg (not_Requested_zero ev)]

theorem Registry.get_of_none (r : Registry) (k : String) (h : r k = none) : r.get k = 0 := by
  simp [Registry.get, h]

theorem Registry.get_of_some (r : Registry) (k : String) (m : Nat) (h : r k = some m) :
    r.get k = m := by
  simp [Registry.get, h]

/-! ## Lemmas on the loop -/

theorem purgeLoop_append (w : Watcher) (xs ys : List FileEvent) :
    purgeLoop w (xs ++ ys) = purgeLoop (purgeLoop w xs) ys := by
  induction xs generalizing w with
  | nil => rfl
  | cons x rest ih => exact ih (purgeStep w x)

theorem purgeLoop_concat (w : Watcher) (xs : List FileEvent) (ev : FileEvent) :
    purgeLoop w (xs ++ [ev]) = purgeStep (purgeLoop w xs) ev := by
  rw [purgeLoop_append]; rfl

/-- The events sent by the loop are the input events that the mask stored for
their path at the time they are processed requests, in input order. -/
theorem purgeLoop_Event (w : Watcher) (evs : List FileEvent) :
    (purgeLoop w evs).Event = w.Event ++
      ((evs.enum.filter (fun ie =>
        decide (Requested ((purgeLoop w (evs.take ie.1)).fsnFlags.get ie.2.Name) ie.2))).map
          (fun ie => ChanOp.send ie.2)) := by
  induction evs using List.reverseRecOn with
  | nil => simp [purgeLoop]
  | append_singleton l a ih =>
    rw [purgeLoop_concat, purgeStep_Event, List.enum_append, List.filter_append, List.map_append,
      List.enumFrom_singleton]
    have hcongr : l.enum.filter (fun ie =>
        decide (Requested ((purgeLoop w ((l ++ [a]).take ie.1)).fsnFlags.get ie.2.Name) ie.2)) =
        l.enum.filter (fun ie =>
        decide (Requested ((purgeLoop w (l.take ie.1)).fsnFlags.get ie.2.Name) ie.2)) := by
      apply List.filter_congr
      intro x hx
      rw [List.take_append_of_le_length (Nat.le_of_lt (List.fst_lt_of_mem_enum hx))]
    rw [hcongr, ih]
    by_cases hr : Requested ((purgeLoop w l).fsnFlags.get a.Name) a
    · simp [hr, List.filter_cons]
    · simp [hr, List.filter_cons]

/-! ## Lemmas on the traversal -/

theorem watchEach_append (L : WatchLayer) (xs ys : List String) (w : Watcher) :
    watchEach L w (xs ++ ys) =
      match watchEach L w xs with
      | (w1, some err) => (w1, some err)
      | (w1, none) => watchEach L w1 ys := by
  induction xs generalizing w with
  | nil => simp [watchEach]
  | cons p rest ih =>
    simp only [List.cons_append, watchEach]
    rcases hW : Watch L w p with ⟨w1, _ | err⟩
    · simp [ih]
    · simp

mutual
/-- With the callback of `WatchAll`, the walk of a tree is `Watch` applied to
the paths of its traversal, in order, up to the first failure. -/
theorem walk_watchFunc (L : WatchLayer) (path : String) :
    ∀ (info : FileInfo) (w : Watcher),
      walk (watchFunc L) path info w = watchEach L w (walkOrder path info)
  | .gone lerr, w => by
    simp only [walk, walkOrder, watchEach, watchFunc]
    rcases hW : Watch L w path with ⟨w1, _ | err⟩ <;> rfl
  | .file, w => by
    simp only [walk, walkOrder, watchEach, watchFunc]
    rcases hW : Watch L w path with ⟨w1, _ | err⟩ <;> rfl
  | .dir (some rerr) entries, w => by
    simp only [walk, walkOrder, watchEach, watchFunc]
    rcases hW : Watch L w path with ⟨w1, _ | err⟩ <;> simp
  | .dir none entries, w => by
    simp only [walk, walkOrder, watchEach, watchFunc]
    rcases hW : Watch L w path with ⟨w1, _ | err⟩
    · simpa using walkList_watchFunc L entries w1
    · simp
theorem walkList_watchFunc (L : WatchLayer) :
    ∀ (entries : List (String × FileInfo)) (w : Watcher),
      walkList (watchFunc L) entries w = watchEach L w (walkOrderList entries)
  | [], w => by simp [walkList, walkOrderList, watchEach]
  | (p, info) :: rest, w => by
    simp only [walkList, walkOrderList, watchEach_append]
    rw [walk_watchFunc L p info w]
    rcases hW : watchEach L w (walkOrder p info) with ⟨w1, _ | err⟩
    · simp only
      exact walkList_watchFunc L rest w1
    · rfl
end

theorem WatchAll_eq_watchEach (L : WatchLayer) (w : Watcher) (path : String)
    (lstat : Except String FileInfo) :
    WatchAll L w path lstat = watchEach L w (WalkOrder path lstat) := by
  cases lstat with
  | error err =>
    simp only [WatchAll, Walk, WalkOrder, watchEach, watchFunc]
    rcases hW : Watch L w path with ⟨w1, _ | err⟩ <;> rfl
  | ok info => exact walk_watchFunc L path info w

theorem WatchAllFlags_eq_watchEach (L : WatchLayer) (w : Watcher) (path : String)
    (flags : Nat) (lstat : Except String FileInfo) :
    WatchAllFlags L w path flags lstat =
      watchEach L { w with fsnFlags := w.fsnFlags.set path flags } (WalkOrder path lstat) :=
  WatchAll_eq_watchEach L _ path lstat

/-- The traversal reports its root first. -/
theorem WalkOrder_eq_cons (path : String) (lstat : Except String FileInfo) :
    ∃ rest, WalkOrder path lstat = path :: rest := by
  rcases lstat with err | info
  · exact ⟨[], rfl⟩
  · rcases info with lerr | _ | ⟨_ | rerr, entries⟩
    · exact ⟨[], by simp [WalkOrder, walkOrder]⟩
    · exact ⟨[], by simp [WalkOrder, walkOrder]⟩
    · exact ⟨walkOrderList entries, by simp [WalkOrder, walkOrder]⟩
    · exact ⟨[], by simp [WalkOrder, walkOrder]⟩

theorem watched_nil (w : Watcher) : watched w [] = w := by
  cases w; simp [watched]

theorem watched_watched (w : Watcher) (xs ys : List String) :
    watched (watched w xs) ys = watched w (xs ++ ys) := by
  simp only [watched, List.map_append, List.append_assoc, Watcher.mk.injEq, and_true]
  funext q
  by_cases h1 : q ∈ ys <;> by_cases h2 : q ∈ xs <;> simp [h1, h2]

theorem Watch_eq (L : WatchLayer) (w : Watcher) (p : String) :
    Watch L w p = (watched w [p], L.watchAllEvents w.calls p) := by
  simp only [Watch, watched, List.mem_singleton, List.map_cons, List.map_nil]
  rfl

/-- Whatever the watch layer returns, `watchEach` has run `Watch` on a prefix
of its list, which is not empty when the list is not. -/
theorem watchEach_prefix (L : WatchLayer) (xs : List String) (w : Watcher) :
    ∃ vis, vis <+: xs ∧ (xs ≠ [] → vis ≠ []) ∧ (watchEach L w xs).1 = watched w vis := by
  induction xs generalizing w with
  | nil => exact ⟨[], List.prefix_refl _, fun h => h, by simp [watchEach, watched_nil]⟩
  | cons p rest ih =>
    simp only [watchEach, Watch_eq]
    rcases hr : L.watchAllEvents w.calls p with _ | err
    · obtain ⟨vis, hpre, -, heq⟩ := ih (watched w [p])
      refine ⟨p :: vis, by simpa using hpre, by simp, ?_⟩
      simp only [heq, watched_watched, List.singleton_append]
    · exact ⟨[p], by simp, by simp, rfl⟩

/-- When every start request succeeds, `Watch` has run on the whole list. -/
theorem watchEach_ok (L : WatchLayer) (xs : List String) (w : Watcher)
    (hok : ∀ a q b, xs = a ++ q :: b →
      L.watchAllEvents (w.calls ++ a.map LayerCall.start) q = none) :
    watchEach L w xs = (watched w xs, none) := by
  induction xs generalizing w with
  | nil => simp [watchEach, watched_nil]
  | cons p rest ih =>
    simp only [watchEach, Watch_eq]
    have h0 : L.watchAllEvents w.calls p = none := by
      simpa using hok [] p rest rfl
    rw [h0]
    simp only
    rw [ih (watched w [p]), watched_watched, List.singleton_append]
    intro a q b hab
    have := hok (p :: a) q b (by simp [hab])
    simpa [watched] using this

/-- A failing start request ends `watchEach` right after it. -/
theorem watchEach_fail (L : WatchLayer) (pre post : List String) (p : String) (err : String)
    (w : Watcher)
    (hok : ∀ a q b, pre = a ++ q :: b →
      L.watchAllEvents (w.calls ++ a.map LayerCall.start) q = none)
    (hfail : L.watchAllEvents (w.calls ++ pre.map LayerCall.start) p = some err) :
    watchEach L w (pre ++ p :: post) = (watched w (pre ++ [p]), some err) := by
  rw [watchEach_append, watchEach_ok L pre w hok]
  simp only [watchEach, Watch_eq]
  have : (watched w pre).calls = w.calls ++ pre.map LayerCall.start := rfl
  rw [this, hfail]
  simp only [watched_watched]

/-- A `watchEach` that returns no error has run `Watch` on the whole list. -/
theorem watchEach_of_none (L : WatchLayer) (xs : List String) (w : Watcher)
    (h : (watchEach L w xs).2 = none) : (watchEach L w xs).1 = watched w xs := by
  induction xs generalizing w with
  | nil => simp [watchEach, watched_nil]
  | cons p rest ih =>
    simp only [watchEach, Watch_eq] at h ⊢
    rcases hr : L.watchAllEvents w.calls p with _ | err
    · rw [hr] at h
      simp only at h ⊢
      rw [ih _ h, watched_watched, List.singleton_append]
    · rw [hr] at h
      simp at h

/-! ## Lemmas on interleavings -/

/-- An action that does not register `P` leaves `P` without entry. -/
theorem Op.run_fsnFlags_none (L : WatchLayer) (w : Watcher) (P : String) (op : Op)
    (hreg : ¬ op.registers P) (h : w.fsnFlags P = none) :
    (op.run L w).fsnFlags P = none := by
  cases op with
  | event ev =>
    simp only [Op.run, purgeStep_fsnFlags]
    split
    · simp only [Registry.delete]
      split <;> simp [h]
    · exact h
  | watch path =>
    have hne : P ≠ path := fun hc => hreg hc.symm
    simp [Op.run, Watch_eq, watched, hne, h]
  | watchFlags path flags =>
    have hne : P ≠ path := fun hc => hreg hc.symm
    simp [Op.run, WatchFlags, Registry.set, hne, h]
  | watchAll path lstat =>
    simp only [Op.run, WatchAll_eq_watchEach]
    obtain ⟨vis, hpre, -, heq⟩ := watchEach_prefix L (WalkOrder path lstat) w
    have hnot : P ∉ vis := fun hc => hreg (hpre.subset hc)
    simp [heq, watched, hnot, h]
  | watchAllFlags path flags lstat =>
    simp only [Op.run, WatchAllFlags_eq_watchEach]
    obtain ⟨vis, hpre, -, heq⟩ := watchEach_prefix L (WalkOrder path lstat)
      { w with fsnFlags := w.fsnFlags.set path flags }
    have hnot : P ∉ vis := fun hc => hreg (Or.inr (hpre.subset hc))
    have hne : P ≠ path := fun hc => hreg (Or.inl hc)
    simp [heq, watched, hnot, Registry.set, hne, h]
  | removeWatch path =>
    simp only [Op.run, RemoveWatch, Registry.delete]
    split <;> simp [h]

theorem runOps_fsnFlags_none (L : WatchLayer) (P : String) (ops : List Op) (w : Watcher)
    (hreg : ∀ op ∈ ops, ¬ op.registers P) (h : w.fsnFlags P = none) :
    (runOps L w ops).fsnFlags P = none := by
  induction ops generalizing w with
  | nil => exact h
  | cons op rest ih =>
    exact ih (op.run L w) (fun o ho => hreg o (List.mem_cons_of_mem _ ho))
      (Op.run_fsnFlags_none L w P op (hreg op (List.mem_cons_self _ _)) h)

/-- An event on a path with a stored mask that requests one of its categories
is sent. -/
theorem purgeStep_Event_of_Requested (w : Watcher) (ev : FileEvent) (m : Nat)
    (hm : w.fsnFlags ev.Name = some m) (hr : Requested m ev) :
    (purgeStep w ev).Event = w.Event ++ [ChanOp.send ev] := by
  rw [purgeStep_Event, Registry.get_of_some _ _ _ hm, if_pos hr]

/-! ## Lemmas on masks -/

/-- An iteration sends the event exactly when the mask read for its path
requests one of its categories. -/
theorem Forwards_iff (w : Watcher) (ev : FileEvent) :
    Forwards w ev ↔ Requested (w.fsnFlags.get ev.Name) ev := by
  unfold Forwards
  rw [purgeStep_Event]
  by_cases hr : Requested (w.fsnFlags.get ev.Name) ev <;> simp [hr]

/-- An iteration that does not send the event sends nothing. -/
theorem purgeStep_Event_of_not_Forwards (w : Watcher) (ev : FileEvent)
    (h : ¬ Forwards w ev) : (purgeStep w ev).Event = w.Event := by
  rw [Forwards_iff] at h
  rw [purgeStep_Event, if_neg h]

theorem Requested_or (m1 m2 : Nat) (ev : FileEvent) :
    Requested (m1 ||| m2) ev ↔ Requested m1 ev ∨ Requested m2 ev := by
  simp only [Requested, Nat.testBit_or, Bool.or_eq_true]
  constructor
  · rintro (⟨h | h, c⟩ | ⟨h | h, c⟩ | ⟨h | h, c⟩ | ⟨h | h, c⟩ | ⟨h | h, c⟩)
    all_goals simp [h, c]
  · rintro (h | h)
    all_goals
      rcases h with ⟨h, c⟩ | ⟨h, c⟩ | ⟨h, c⟩ | ⟨h, c⟩ | ⟨h, c⟩
      all_goals simp [h, c]

theorem testBit_ALL_FLAGS (k : Nat) (hk : k < 5) : ALL_FLAGS.testBit k = true := by
  interval_cases k <;> decide

theorem Requested_and_ALL_FLAGS (m : Nat) (ev : FileEvent) :
    Requested (m &&& ALL_FLAGS) ev ↔ Requested m ev := by
  simp only [Requested, Nat.testBit_and, Bool.and_eq_true,
    testBit_ALL_FLAGS 0 (by decide), testBit_ALL_FLAGS 1 (by decide),
    testBit_ALL_FLAGS 2 (by decide), testBit_ALL_FLAGS 3 (by decide),
    testBit_ALL_FLAGS 4 (by decide), and_true]

theorem Requested_ALL_FLAGS (ev : FileEvent) :
    Requested ALL_FLAGS ev ↔
      (ev.IsCreate = true ∨ ev.IsModify = true ∨ ev.IsDelete = true ∨ ev.IsRename = true ∨
        ev.IsFileWrite = true) := by
  simp only [Requested, testBit_ALL_FLAGS 0 (by decide), testBit_ALL_FLAGS 1 (by decide),
    testBit_ALL_FLAGS 2 (by decide), testBit_ALL_FLAGS 3 (by decide),
    testBit_ALL_FLAGS 4 (by decide), true_and]

/-- No mask requests an event for which none of the five predicates holds. -/
theorem not_Requested_of_blank (m : Nat) (ev : FileEvent)
    (h : ev.IsCreate = false ∧ ev.IsModify = false ∧ ev.IsDelete = false ∧
      ev.IsRename = false ∧ ev.IsFileWrite = false) : ¬ Requested m ev := by
  obtain ⟨h1, h2, h3, h4, h5⟩ := h
  simp [Requested, h1, h2, h3, h4, h5]

/-! ## Lemmas on the lock and on the slice -/

/-- The watcher and the actions of one iteration. -/
theorem purgeStepLocked_eq (w : Watcher) (ev : FileEvent) :
    purgeStepLocked w ev =
      (purgeStep w ev,
        [Action.lock, Action.mapRead ev.Name, Action.unlock] ++
          (if Requested (w.fsnFlags.get ev.Name) ev then [Action.send ev] else []) ++
          (if ev.IsDelete then [Action.lock, Action.mapDelete ev.Name, Action.unlock]
            else [])) := by
  have h := sendEvent_iff (w.fsnFlags.get ev.Name) ev
  rw [purgeStep_eq]
  unfold purgeStepLocked
  simp only [Bool.false_eq_true, if_false] at h ⊢
  by_cases hr : Requested (w.fsnFlags.get ev.Name) ev
  · rw [if_pos (h.mpr hr), if_pos hr, if_pos hr]
    cases ev.IsDelete <;> simp
  · rw [if_neg (fun hc => hr (h.mp hc)), if_neg hr, if_neg hr]
    cases ev.IsDelete <;> simp

theorem LockState.run_append (s : LockState) (xs ys : List Action) :
    s.run (xs ++ ys) = (s.run xs).bind (fun s1 => s1.run ys) := by
  induction xs generalizing s with
  | nil => simp [LockState.run]
  | cons a rest ih =>
    simp only [List.cons_append, LockState.run]
    cases s.step a with
    | none => simp
    | some s1 => simpa using ih s1

/-- The actions of one iteration respect the lock discipline and leave the
lock free. -/
theorem purgeStepLocked_run (w : Watcher) (ev : FileEvent) :
    LockState.free.run (purgeStepLocked w ev).2 = some LockState.free := by
  rw [purgeStepLocked_eq]
  by_cases hr : Requested (w.fsnFlags.get ev.Name) ev <;> cases ev.IsDelete <;>
    simp [hr, LockState.run, LockState.step]

theorem purgeLoopLocked_fst (w : Watcher) (evs : List FileEvent) :
    (purgeLoopLocked w evs).1 = purgeLoop w evs := by
  induction evs generalizing w with
  | nil => rfl
  | cons ev rest ih =>
    simp only [purgeLoopLocked, purgeLoop, purgeStepLocked_eq]
    exact ih _

theorem purgeLoopLocked_run (w : Watcher) (evs : List FileEvent) :
    LockState.free.run (purgeLoopLocked w evs).2 = some LockState.free := by
  induction evs generalizing w with
  | nil => rfl
  | cons ev rest ih =>
    simp only [purgeLoopLocked]
    rw [LockState.run_append, purgeStepLocked_run]
    simpa [purgeStepLocked_eq] using ih (purgeStep w ev)

/-- The sends among the actions of the loop are the sends on the channel. -/
theorem purgeLoopLocked_sends (w : Watcher) (evs : List FileEvent) :
    w.Event ++ (purgeLoopLocked w evs).2.filterMap Action.toChanOp =
      (purgeLoop w evs).Event := by
  induction evs generalizing w with
  | nil => simp [purgeLoopLocked, purgeLoop]
  | cons ev rest ih =>
    simp only [purgeLoopLocked, purgeLoop, List.filterMap_append]
    rw [← ih (purgeStep w ev), purgeStepLocked_eq, purgeStep_Event]
    by_cases hr : Requested (w.fsnFlags.get ev.Name) ev <;> cases ev.IsDelete <;>
      simp [hr, Action.toChanOp]

/-- The slice of line 141 is never out of range: the checked method returns
what the method returns. -/
theorem StringChecked_eq (esc : Char → String) (e : FileEvent) :
    StringChecked esc e = some (e.String esc) := by
  rcases e with ⟨n, c, m, d, r, f⟩
  cases c <;> cases m <;> cases d <;> cases r <;> cases f <;> rfl

/-! ## Lemmas on the registry along the loop -/

/-- The registry after the loop: the paths of the deletion events are removed,
the other entries are kept. -/
theorem purgeLoop_fsnFlags (w : Watcher) (evs : List FileEvent) (q : String) :
    (purgeLoop w evs).fsnFlags q =
      if evs.any (fun e => decide (e.Name = q) && e.IsDelete) then none
      else w.fsnFlags q := by
  induction evs generalizing w with
  | nil => simp [purgeLoop]
  | cons ev rest ih =>
    simp only [purgeLoop, ih, purgeStep_fsnFlags, List.any_cons]
    by_cases hrest : rest.any (fun e => decide (e.Name = q) && e.IsDelete) = true
    · simp [hrest]
    · rcases Bool.eq_false_or_eq_true ev.IsDelete with hd | hd
      · by_cases hq : ev.Name = q
        · simp [hd, hq, Registry.delete]
        · have hq2 : ¬ q = ev.Name := fun hc => hq hc.symm
          simp [hd, hrest, hq, hq2, Registry.delete]
      · simp [hd, hrest]

/-- The mask read for a path after the loop: zero once a deletion event on
the path has been processed, the initial mask otherwise. -/
theorem purgeLoop_get (w : Watcher) (evs : List FileEvent) (q : String) :
    (purgeLoop w evs).fsnFlags.get q =
      if evs.any (fun e => decide (e.Name = q) && e.IsDelete) then 0
      else w.fsnFlags.get q := by
  unfold Registry.get
  rw [purgeLoop_fsnFlags]
  split <;> rfl

/-! ## Lemmas on traversals that succeed -/

mutual
/-- When no directory listing and no `os.Lstat` fails, the traversal reports
every path of the subtree once, in order. -/
theorem walkOrder_of_readable (path : String) :
    ∀ info : FileInfo, info.readable = true → walkOrder path info = subtreePaths path info
  | .gone lerr, h => by simp [FileInfo.readable] at h
  | .file, _ => by simp [walkOrder, subtreePaths]
  | .dir (some rerr) entries, h => by simp [FileInfo.readable] at h
  | .dir none entries, h => by
    simp only [FileInfo.readable, Option.isNone_none, Bool.true_and] at h
    simp only [walkOrder, subtreePaths, walkOrderList_of_readable entries h]
theorem walkOrderList_of_readable :
    ∀ entries : List (String × FileInfo), readableList entries = true →
      walkOrderList entries = subtreePathsList entries
  | [], _ => by simp [walkOrderList, subtreePathsList]
  | (p, info) :: rest, h => by
    simp only [readableList, Bool.and_eq_true] at h
    simp only [walkOrderList, subtreePathsList, walkOrder_of_readable p info h.1,
      walkOrderList_of_readable rest h.2]
end

/-- The subtree holds its root. -/
theorem mem_subtreePaths_root (path : String) (info : FileInfo) :
    path ∈ subtreePaths path info := by
  cases info <;> simp [subtreePaths]

/-! ## Lemmas on the blocking send -/

theorem purgeLoop_Event_length_le (w : Watcher) (evs : List FileEvent) :
    w.Event.length ≤ (purgeLoop w evs).Event.length := by
  rw [purgeLoop_Event, List.length_append]
  exact Nat.le_add_right _ _

theorem purgeStep_Event_length (w : Watcher) (ev : FileEvent) :
    (purgeStep w ev).Event.length = w.Event.length + (if Forwards w ev then 1 else 0) := by
  by_cases hf : Forwards w ev
  · rw [if_pos hf]
    unfold Forwards at hf
    rw [hf, List.length_append, List.length_singleton]
  · rw [if_neg hf, purgeStep_Event_of_not_Forwards w ev hf]
    rfl

/-- When the reader receives at least as many events as the loop sends, the
loop ends, in the state computed by `purgeLoop`. -/
theorem purgeLoopRecv_returned (w : Watcher) (recv : Nat) (evs : List FileEvent)
    (h : (purgeLoop w evs).Event.length ≤ w.Event.length + recv) :
    purgeLoopRecv w recv evs = Run.returned (purgeLoop w evs) := by
  induction evs generalizing w recv with
  | nil => rfl
  | cons ev rest ih =>
    have hmono := purgeLoop_Event_length_le (purgeStep w ev) rest
    have hlen := purgeStep_Event_length w ev
    simp only [purgeLoop] at h
    simp only [purgeLoopRecv, purgeLoop]
    by_cases hf : Forwards w ev
    · rw [if_pos hf] at hlen ⊢
      cases recv with
      | zero => omega
      | succ n => exact ih (purgeStep w ev) n (by omega)
    · rw [if_neg hf] at hlen ⊢
      exact ih (purgeStep w ev) recv (by omega)

/-- When the reader receives fewer events than the loop sends, the loop
blocks. -/
theorem purgeLoopRecv_blocked (w : Watcher) (recv : Nat) (evs : List FileEvent)
    (h : w.Event.length + recv < (purgeLoop w evs).Event.length) :
    (purgeLoopRecv w recv evs).isReturned = false := by
  induction evs generalizing w recv with
  | nil => simp [purgeLoop] at h
  | cons ev rest ih =>
    have hlen := purgeStep_Event_length w ev
    simp only [purgeLoop] at h
    simp only [purgeLoopRecv]
    by_cases hf : Forwards w ev
    · rw [if_pos hf] at hlen ⊢
      cases recv with
      | zero => rfl
      | succ n => exact ih (purgeStep w ev) n (by omega)
    · rw [if_neg hf] at hlen ⊢
      exact ih (purgeStep w ev) recv (by omega)

theorem purgeEventsRecv_isReturned (w : Watcher) (recv : Nat) (evs : List FileEvent) :
    (purgeEventsRecv w recv evs).isReturned = (purgeLoopRecv w recv evs).isReturned := by
  unfold purgeEventsRecv
  cases purgeLoopRecv w recv evs <;> rfl

/-- An error returned by `watchEach` is the error of a start request. -/
theorem watchEach_of_some (L : WatchLayer) (xs : List String) (w : Watcher) (err : String)
    (h : (watchEach L w xs).2 = some err) :
    ∃ pre p post, xs = pre ++ p :: post ∧
      L.watchAllEvents (w.calls ++ pre.map LayerCall.start) p = some err := by
  induction xs generalizing w with
  | nil => simp [watchEach] at h
  | cons q rest ih =>
    simp only [watchEach, Watch_eq] at h
    rcases hr : L.watchAllEvents w.calls q with _ | e
    · rw [hr] at h
      simp only at h
      obtain ⟨pre, p, post, hxs, hp⟩ := ih (watched w [q]) h
      refine ⟨q :: pre, p, post, by simp [hxs], ?_⟩
      simpa [watched] using hp
    · rw [hr] at h
      simp only [Option.some.injEq] at h
      exact ⟨[], q, rest, rfl, by simpa [h] using hr⟩

/-! ## The claims -/

/-- C1: for a path whose stored mask is `M` and an event `E` on it, one
iteration of `purgeEvents` sends `E` on the public channel if and only if `M`
has `CREATE` (bit 0) and `E` is a creation, or `M` has `MODIFY` (bit 1) and `E`
is a modification, or `M` has `DELETE` (bit 2) and `E` is a deletion, or `M`
has `RENAME` (bit 3) and `E` is a rename, or `M` has `FILE_WRITE` (bit 4) and
`E` is a content write; the iteration sends nothing else, and it sends `E` once
however many of the five hold. -/
theorem C1_purgeStep_forwards_iff (w : Watcher) (E : FileEvent) (M : Nat)
    (hM : w.fsnFlags E.Name = some M) :
    ((purgeStep w E).Event = w.Event ++ [ChanOp.send E] ↔
      ((M.testBit 0 ∧ E.IsCreate) ∨ (M.testBit 1 ∧ E.IsModify) ∨
        (M.testBit 2 ∧ E.IsDelete) ∨ (M.testBit 3 ∧ E.IsRename) ∨
        (M.testBit 4 ∧ E.IsFileWrite))) ∧
    ((purgeStep w E).Event = w.Event ↔
      ¬ ((M.testBit 0 ∧ E.IsCreate) ∨ (M.testBit 1 ∧ E.IsModify) ∨
        (M.testBit 2 ∧ E.IsDelete) ∨ (M.testBit 3 ∧ E.IsRename) ∨
        (M.testBit 4 ∧ E.IsFileWrite))) := by
  rw [purgeStep_Event, Registry.get_of_some _ _ _ hM]
  change (_ ↔ Requested M E) ∧ (_ ↔ ¬ Requested M E)
  by_cases hr : Requested M E
  · simp [hr]
  · simp [hr]

theorem C1_purgeStep_forwards_iff_witness :
    sampleWatcher.fsnFlags writeEvent.Name = some 6 ∧
      (purgeStep sampleWatcher writeEvent).Event = [ChanOp.send writeEvent] :=
  ⟨by decide, (C1_purgeStep_forwards_iff sampleWatcher writeEvent 6 (by decide)).1.mpr
    (by decide)⟩

/-- C2: when `purgeEvents` processes a deletion event `E`, the registry has
no entry for the path of `E` afterwards, whatever mask was stored and so
whether or not `E` was sent. From then on, through any sequence of later
events and registration calls none of which registers that path, no event on
the path is sent, whatever its categories. Once the path is registered again,
by `WatchFlags` with a mask `M`, by `Watch`, or by a `WatchAll` or
`WatchAllFlags` that returns no error and whose traversal reports the path, an
event on the path that the registered mask requests is sent again. -/
theorem C2_deletion_removes_entry (L : WatchLayer) (w : Watcher) (E : FileEvent)
    (hE : E.IsDelete = true) :
    (purgeStep w E).fsnFlags E.Name = none ∧
    (∀ (ops : List Op) (E' : FileEvent), (∀ op ∈ ops, ¬ op.registers E.Name) →
      E'.Name = E.Name →
      (purgeStep (runOps L (purgeStep w E) ops) E').Event =
        (runOps L (purgeStep w E) ops).Event) ∧
    (∀ (w' : Watcher) (M : Nat) (E' : FileEvent), E'.Name = E.Name → Requested M E' →
      (purgeStep (WatchFlags L w' E.Name M).1 E').Event = w'.Event ++ [ChanOp.send E']) ∧
    (∀ (w' : Watcher) (E' : FileEvent), E'.Name = E.Name → Requested ALL_FLAGS E' →
      (purgeStep (Watch L w' E.Name).1 E').Event = w'.Event ++ [ChanOp.send E']) ∧
    (∀ (w' : Watcher) (root : String) (lstat : Except String FileInfo) (E' : FileEvent),
      E.Name ∈ WalkOrder root lstat → (WatchAll L w' root lstat).2 = none →
      E'.Name = E.Name → Requested ALL_FLAGS E' →
      (purgeStep (WatchAll L w' root lstat).1 E').Event = w'.Event ++ [ChanOp.send E']) ∧
    (∀ (w' : Watcher) (root : String) (M : Nat) (lstat : Except String FileInfo)
      (E' : FileEvent),
      E.Name ∈ WalkOrder root lstat → (WatchAllFlags L w' root M lstat).2 = none →
      E'.Name = E.Name → Requested ALL_FLAGS E' →
      (purgeStep (WatchAllFlags L w' root M lstat).1 E').Event =
        w'.Event ++ [ChanOp.send E']) := by
  have hnone : (purgeStep w E).fsnFlags E.Name = none := by
    simp [purgeStep_fsnFlags, hE, Registry.delete]
  refine ⟨hnone, ?_, ?_, ?_, ?_, ?_⟩
  · intro ops E' hreg hname
    apply purgeStep_Event_of_get_zero
    rw [hname]
    exact Registry.get_of_none _ _ (runOps_fsnFlags_none L E.Name ops _ hreg hnone)
  · intro w' M E' hname hr
    rw [← hname]
    exact purgeStep_Event_of_Requested _ E' M (by simp [WatchFlags, Registry.set]) hr
  · intro w' E' hname hr
    rw [← hname]
    exact purgeStep_Event_of_Requested _ E' ALL_FLAGS (by simp [Watch, Registry.set]) hr
  · intro w' root lstat E' hmem hres hname hr
    rw [WatchAll_eq_watchEach] at hres ⊢
    rw [watchEach_of_none L _ _ hres]
    exact purgeStep_Event_of_Requested _ E' ALL_FLAGS (by simp [watched, hname, hmem]) hr
  · intro w' root M lstat E' hmem hres hname hr
    rw [WatchAllFlags_eq_watchEach] at hres ⊢
    rw [watchEach_of_none L _ _ hres]
    exact purgeStep_Event_of_Requested _ E' ALL_FLAGS (by simp [watched, hname, hmem]) hr

theorem C2_deletion_removes_entry_witness :
    deleteEvent.IsDelete = true ∧
    (purgeStep sampleWatcher deleteEvent).fsnFlags "/tmp/x" = none ∧
    (purgeStep (runOps okLayer (purgeStep sampleWatcher deleteEvent)
      [Op.event writeEvent, Op.watch "/tmp/q", Op.removeWatch "/tmp/x"]) writeEvent).Event =
      [ChanOp.send deleteEvent] ∧
    (purgeStep (WatchFlags okLayer (purgeStep sampleWatcher deleteEvent) "/tmp/x" 2).1
      writeEvent).Event = [ChanOp.send deleteEvent, ChanOp.send writeEvent] :=
  have h := C2_deletion_removes_entry okLayer sampleWatcher deleteEvent (by decide)
  ⟨by decide, h.1,
    (h.2.1 [Op.event writeEvent, Op.watch "/tmp/q", Op.removeWatch "/tmp/x"] writeEvent
      (by
        intro op hop
        simp only [List.mem_cons, List.mem_singleton, List.not_mem_nil, or_false] at hop
        rcases hop with rfl | rfl | rfl <;> simp [Op.registers, deleteEvent])
      (by decide)).trans (by decide),
    (h.2.2.1 (purgeStep sampleWatcher deleteEvent) 2 writeEvent (by decide)
      (by decide)).trans (by decide)⟩

/-- C3: an event on a path that has no entry in the registry, or whose entry
is the zero mask, is not sent by `purgeEvents`, whatever its five categories;
in particular nothing is sent for a path just registered with mask 0 by
`WatchFlags`. -/
theorem C3_absent_or_zero_mask_forwards_nothing (L : WatchLayer) (w : Watcher)
    (E : FileEvent) :
    (w.fsnFlags E.Name = none → (purgeStep w E).Event = w.Event) ∧
    (w.fsnFlags E.Name = some 0 → (purgeStep w E).Event = w.Event) ∧
    (purgeStep (WatchFlags L w E.Name 0).1 E).Event = w.Event := by
  refine ⟨fun h => ?_, fun h => ?_, ?_⟩
  · exact purgeStep_Event_of_get_zero w E (Registry.get_of_none _ _ h)
  · exact purgeStep_Event_of_get_zero w E (Registry.get_of_some _ _ _ h)
  · rw [purgeStep_Event_of_get_zero]
    · rfl
    · simp [WatchFlags, Registry.get, Registry.set]

theorem C3_absent_or_zero_mask_forwards_nothing_witness :
    sampleWatcher.fsnFlags strayEvent.Name = none ∧
      (purgeStep sampleWatcher strayEvent).Event = sampleWatcher.Event :=
  ⟨by decide,
    (C3_absent_or_zero_mask_forwards_nothing okLayer sampleWatcher strayEvent).1 (by decide)⟩

/-- C4: after `RemoveWatch(P)` the registry has no entry for `P`, the call
returns exactly what the stop request of the watch layer returned (success or
any error), the stop request was made on `P`, and an event on `P` processed
by `purgeEvents` right afterwards is not sent. -/
theorem C4_RemoveWatch_unconditional (L : WatchLayer) (w : Watcher) (P : String)
    (E : FileEvent) (hE : E.Name = P) :
    (RemoveWatch L w P).1.fsnFlags P = none ∧
    (RemoveWatch L w P).2 = L.removeWatch w.calls P ∧
    (RemoveWatch L w P).1.calls = w.calls ++ [LayerCall.stop P] ∧
    (purgeStep (RemoveWatch L w P).1 E).Event = w.Event := by
  refine ⟨by simp [RemoveWatch, Registry.delete], rfl, rfl, ?_⟩
  rw [purgeStep_Event_of_get_zero]
  · rfl
  · simp [RemoveWatch, Registry.get, Registry.delete, hE]

theorem C4_RemoveWatch_unconditional_witness :
    writeEvent.Name = "/tmp/x" ∧
      (RemoveWatch failLayer sampleWatcher "/tmp/x").2 = some "invalid argument" ∧
      (purgeStep (RemoveWatch failLayer sampleWatcher "/tmp/x").1 writeEvent).Event = [] :=
  ⟨by decide,
    (C4_RemoveWatch_unconditional failLayer sampleWatcher "/tmp/x" writeEvent (by decide)).2.1,
    (C4_RemoveWatch_unconditional failLayer sampleWatcher "/tmp/x" writeEvent
      (by decide)).2.2.2⟩

/-- C5 (the claim fails): with a registry that requests modifications for
"/tmp/x", one modification event on "/tmp/x" in the internal channel and a
reader that receives nothing from the public channel, `purgeEvents` does not
terminate: it stays blocked in the send of line 51 and the public channel is
never closed. -/
theorem C5_counterexample :
    (purgeEventsRecv sampleWatcher 0 [writeEvent]).isReturned = false ∧
    ChanOp.close ∉ (purgeEventsRecv sampleWatcher 0 [writeEvent]).watcher.Event := by
  decide

/-- C5 (amended): for every finite sequence of raw events received before the
internal channel is closed and every reader that receives at least as many
events from the public channel as the loop sends, `purgeEvents` terminates,
and what it does on the public channel is: send, in arrival order, exactly
those input events that the mask stored for their path requests at the moment
they are processed (the registry left by the events before them), each once,
and then close the channel once, after the last send. With a reader that
receives fewer events, `purgeEvents` does not terminate. -/
theorem C5_purgeEvents_trace_with_reader (w : Watcher) (evs : List FileEvent) (recv : Nat)
    (hrecv : (evs.enum.filter (fun ie =>
      decide (Requested ((purgeLoop w (evs.take ie.1)).fsnFlags.get ie.2.Name) ie.2))).length
        ≤ recv) :
    purgeEventsRecv w recv evs = Run.returned (purgeEvents w evs) ∧
    (purgeEvents w evs).Event = w.Event ++
      ((evs.enum.filter (fun ie =>
        decide (Requested ((purgeLoop w (evs.take ie.1)).fsnFlags.get ie.2.Name) ie.2))).map
          (fun ie => ChanOp.send ie.2)) ++ [ChanOp.close] ∧
    List.Sublist ((evs.enum.filter (fun ie =>
        decide (Requested ((purgeLoop w (evs.take ie.1)).fsnFlags.get ie.2.Name) ie.2))).map
          Prod.snd) evs ∧
    (∀ fewer : Nat, fewer < (evs.enum.filter (fun ie =>
      decide (Requested ((purgeLoop w (evs.take ie.1)).fsnFlags.get ie.2.Name) ie.2))).length →
      (purgeEventsRecv w fewer evs).isReturned = false) := by
  have hlen : (purgeLoop w evs).Event.length = w.Event.length +
      (evs.enum.filter (fun ie =>
        decide (Requested ((purgeLoop w (evs.take ie.1)).fsnFlags.get ie.2.Name)
          ie.2))).length := by
    rw [purgeLoop_Event, List.length_append, List.length_map]
  refine ⟨?_, ?_, ?_, fun fewer hfewer => ?_⟩
  · unfold purgeEventsRecv
    rw [purgeLoopRecv_returned w recv evs (by omega)]
    rfl
  · simp only [purgeEvents, purgeLoop_Event]
  · have h := (List.filter_sublist (p := fun ie : Nat × FileEvent =>
        decide (Requested ((purgeLoop w (evs.take ie.1)).fsnFlags.get ie.2.Name) ie.2))
        evs.enum).map Prod.snd
    rwa [List.enum_map_snd] at h
  · rw [purgeEventsRecv_isReturned]
    exact purgeLoopRecv_blocked w fewer evs (by omega)

theorem C5_purgeEvents_trace_with_reader_witness :
    (purgeEventsRecv sampleWatcher 2 [writeEvent, deleteEvent, writeEvent]).isReturned =
        true ∧
      (purgeEvents sampleWatcher [writeEvent, deleteEvent, writeEvent]).Event =
        [ChanOp.send writeEvent, ChanOp.send deleteEvent, ChanOp.close] ∧
      (purgeEventsRecv sampleWatcher 1 [writeEvent, deleteEvent, writeEvent]).isReturned =
        false :=
  have h := C5_purgeEvents_trace_with_reader sampleWatcher
    [writeEvent, deleteEvent, writeEvent] 2 (by decide)
  ⟨by rw [h.1]; rfl, h.2.1.trans (by decide), h.2.2.2 1 (by decide)⟩

/-- C6: the method `FileEvent.String` returns the quoted path, a colon and a space,
then the names of exactly the categories whose predicate is true on the
event, in the fixed order CREATE, DELETE, MODIFY, FILE_WRITE, RENAME, joined
with a vertical bar (none leading, none trailing); an event on "/tmp/x" that
is a modification and a content write and nothing else renders as
`"/tmp/x": MODIFY|FILE_WRITE`. The method reads the event alone: no registry
is among its arguments. -/
theorem C6_String_format (esc : Char → String) (e : FileEvent) :
    e.String esc = quote esc e.Name ++ ": " ++
      "|".intercalate
        (([("CREATE", e.IsCreate), ("DELETE", e.IsDelete), ("MODIFY", e.IsModify),
          ("FILE_WRITE", e.IsFileWrite), ("RENAME", e.IsRename)].filter
            (fun c => c.2)).map (fun c => c.1)) ∧
    (FileEvent.mk "/tmp/x" false true false false true).String esc =
      "\"/tmp/x\": MODIFY|FILE_WRITE" := by
  refine ⟨?_, ?_⟩
  · rcases e with ⟨n, c, m, d, r, f⟩
    cases c <;> cases m <;> cases d <;> cases r <;> cases f <;>
      dsimp only [FileEvent.String] <;>
      refine congrArg (fun t => quote esc n ++ ": " ++ t) ?_ <;>
      decide
  · rfl

/-- C7: the claim is that after `WatchAllFlags(P, M)` every path of the subtree
holds the mask `M`. The code does not do this: the callback of the traversal
calls `Watch`, and the traversal reports the root first, so after
`WatchAllFlags(P, M)` the root `P` holds `ALL_FLAGS` whatever `M` was. On the
subtree that holds "/dir" alone, with a watch layer that succeeds,
`WatchAllFlags("/dir", MODIFY)` returns no error and leaves `ALL_FLAGS`, not
`MODIFY`, for "/dir". -/
theorem C7_WatchAllFlags_overwrites_flags (L : WatchLayer) (w : Watcher) (P : String)
    (M : Nat) (lstat : Except String FileInfo) :
    (WatchAllFlags L w P M lstat).1.fsnFlags P = some ALL_FLAGS ∧
    (WatchAllFlags okLayer newWatcher "/dir" MODIFY emptyDir).2 = none ∧
    (WatchAllFlags okLayer newWatcher "/dir" MODIFY emptyDir).1.fsnFlags "/dir" = some 31 ∧
    (WatchAllFlags okLayer newWatcher "/dir" MODIFY emptyDir).1.fsnFlags "/dir" ≠
      some MODIFY := by
  refine ⟨?_, by decide, by decide, by decide⟩
  rw [WatchAllFlags_eq_watchEach]
  obtain ⟨rest, hrest⟩ := WalkOrder_eq_cons P lstat
  obtain ⟨vis, hpre, hne, heq⟩ := watchEach_prefix L (WalkOrder P lstat)
    { w with fsnFlags := w.fsnFlags.set P M }
  rw [heq]
  have hmem : P ∈ vis := by
    rw [hrest] at hpre hne
    rcases vis with _ | ⟨v, vs⟩
    · exact absurd rfl (hne (by simp))
    · rw [(List.cons_prefix_cons.mp hpre).1]
      exact List.mem_cons_self _ _
  simp [watched, hmem]

/-- C8 (the claim fails): from an empty registry, after
`WatchAllFlags("/dir", MODIFY)` has succeeded on the subtree that holds "/dir"
alone, `purgeEvents` processing a creation-only event on "/dir/a" and then a
modification-and-write event on "/dir/a" does not send the second event: it
is not the case that the first is withheld and the second sent. -/
theorem C8_counterexample :
    ¬ (ChanOp.send createdA ∉
        (purgeEvents (WatchAllFlags okLayer newWatcher "/dir" MODIFY emptyDir).1
          [createdA, writtenA]).Event ∧
      ChanOp.send writtenA ∈
        (purgeEvents (WatchAllFlags okLayer newWatcher "/dir" MODIFY emptyDir).1
          [createdA, writtenA]).Event) := by
  decide

/-- C8 (amended): from an empty registry, after `WatchAllFlags("/dir", MODIFY)`
on the subtree that holds "/dir" alone, the registry has no entry for
"/dir/a" (it is keyed by the exact path of the event), so when `purgeEvents`
processes a creation-only event on "/dir/a" and then a modification-and-write
event on "/dir/a", neither is sent: the public channel is only closed. -/
theorem C8_events_below_watched_dir_not_forwarded (L : WatchLayer) :
    (WatchAllFlags L newWatcher "/dir" MODIFY emptyDir).1.fsnFlags "/dir/a" = none ∧
    (purgeEvents (WatchAllFlags L newWatcher "/dir" MODIFY emptyDir).1
      [createdA, writtenA]).Event = [ChanOp.close] := by
  have h : (WatchAllFlags L newWatcher "/dir" MODIFY emptyDir).1 =
      watched { newWatcher with fsnFlags := newWatcher.fsnFlags.set "/dir" MODIFY }
        ["/dir"] := by
    rw [WatchAllFlags_eq_watchEach]
    simp only [emptyDir, WalkOrder, walkOrder, walkOrderList, watchEach, Watch_eq]
    rcases L.watchAllEvents _ "/dir" with _ | err <;> simp [watched_watched, watched_nil]
  rw [h]
  decide

/-- C9: after `WatchFlags(P, M)` the registry maps `P` to `M`, whatever was
stored before and whatever the start request of the watch layer returned, the
entry of every other path is unchanged, and the call returns exactly what the
start request returned; `Watch(P)` gives the same watcher and the same result
as `WatchFlags(P, ALL_FLAGS)`. -/
theorem C9_WatchFlags_sets_mask (L : WatchLayer) (w : Watcher) (P : String) (M : Nat) :
    (WatchFlags L w P M).1.fsnFlags P = some M ∧
    (∀ Q : String, Q ≠ P → (WatchFlags L w P M).1.fsnFlags Q = w.fsnFlags Q) ∧
    (WatchFlags L w P M).2 = L.watchAllEvents w.calls P ∧
    Watch L w P = WatchFlags L w P ALL_FLAGS := by
  refine ⟨by simp [WatchFlags, Registry.set], fun Q hQ => ?_, rfl, rfl⟩
  simp [WatchFlags, Registry.set, hQ]

theorem C9_WatchFlags_sets_mask_witness :
    "/tmp/z" ≠ "/tmp/x" ∧
      (WatchFlags failLayer sampleWatcher "/tmp/x" 0).1.fsnFlags "/tmp/z" = some 0 :=
  ⟨by decide, (C9_WatchFlags_sets_mask failLayer sampleWatcher "/tmp/x" 0).2.1 "/tmp/z"
    (by decide)⟩

/-- C10 (the claim fails): on the directory "/d" whose entry "/d/a" cannot be
listed, the traversal reports the error "permission denied", yet with a watch
layer that succeeds `WatchAll("/d")` returns no error and goes on to the next
entry "/d/b": the callback ignores the error handed to it and returns the
result of `Watch` on "/d/a". -/
theorem C10_counterexample :
    (WatchAll okLayer newWatcher "/d" unreadableTree).2 = none ∧
    (WatchAll okLayer newWatcher "/d" unreadableTree).1.calls =
      [LayerCall.start "/d", LayerCall.start "/d/a", LayerCall.start "/d/b"] ∧
    (WatchAll okLayer newWatcher "/d" unreadableTree).1.fsnFlags "/d/b" = some ALL_FLAGS := by
  decide

/-- C10 (amended): let the traversal of the subtree rooted at `P` report the
paths `pre`, then `p`, then `post`. If the start requests of the watch layer
succeed on the paths of `pre` and the one on `p` fails with `err`, then
`WatchAll(P)` returns `err`, it has made start requests for `pre` and `p` and
for no path of `post`, and the registry holds `ALL_FLAGS` for every path of
`pre` and for `p`, and its earlier entry for every other path: nothing is
rolled back. An error that the traversal itself reports (a failing
`os.Lstat`, a directory that cannot be listed) is handed to the callback,
which ignores it: every error that `WatchAll` returns is the error of a start
request, and when every start request succeeds `WatchAll` returns no error and
has made a start request for every path the traversal reports. -/
theorem C10_WatchAll_stops_at_first_watch_failure (L : WatchLayer) (w : Watcher)
    (P : String) (lstat : Except String FileInfo) :
    (∀ (pre post : List String) (p : String) (err : String),
      WalkOrder P lstat = pre ++ p :: post →
      (∀ a q b, pre = a ++ q :: b →
        L.watchAllEvents (w.calls ++ a.map LayerCall.start) q = none) →
      L.watchAllEvents (w.calls ++ pre.map LayerCall.start) p = some err →
      (WatchAll L w P lstat).2 = some err ∧
      (WatchAll L w P lstat).1.calls = w.calls ++ (pre ++ [p]).map LayerCall.start ∧
      (∀ q, q ∈ pre ++ [p] → (WatchAll L w P lstat).1.fsnFlags q = some ALL_FLAGS) ∧
      (∀ q, q ∉ pre ++ [p] → (WatchAll L w P lstat).1.fsnFlags q = w.fsnFlags q)) ∧
    (∀ err : String, (WatchAll L w P lstat).2 = some err →
      ∃ pre p post, WalkOrder P lstat = pre ++ p :: post ∧
        L.watchAllEvents (w.calls ++ pre.map LayerCall.start) p = some err) ∧
    ((∀ a q b, WalkOrder P lstat = a ++ q :: b →
        L.watchAllEvents (w.calls ++ a.map LayerCall.start) q = none) →
      (WatchAll L w P lstat).2 = none ∧
      (WatchAll L w P lstat).1.calls =
        w.calls ++ (WalkOrder P lstat).map LayerCall.start) := by
  refine ⟨fun pre post p err horder hok hfail => ?_, fun err herr => ?_, fun hall => ?_⟩
  · rw [WatchAll_eq_watchEach, horder, watchEach_fail L pre post p err w hok hfail]
    refine ⟨rfl, rfl, fun q hq => ?_, fun q hq => ?_⟩
    · simp only [watched, if_pos hq]
    · simp only [watched, if_neg hq]
  · rw [WatchAll_eq_watchEach] at herr
    exact watchEach_of_some L _ w err herr
  · rw [WatchAll_eq_watchEach, watchEach_ok L _ w hall]
    exact ⟨rfl, rfl⟩

theorem C10_WatchAll_stops_at_first_watch_failure_witness :
    WalkOrder "/d" unreadableTree = ["/d", "/d/a"] ++ "/d/b" :: [] ∧
    (WatchAll pickyLayer sampleWatcher "/d" unreadableTree).2 =
      some "no space left on device" ∧
    (WatchAll pickyLayer sampleWatcher "/d" unreadableTree).1.fsnFlags "/d/a" =
      some ALL_FLAGS ∧
    (WatchAll pickyLayer sampleWatcher "/d" unreadableTree).1.fsnFlags "/tmp/x" = some 6 ∧
    (WatchAll onceLayer sampleWatcher "/d" unreadableTree).2 = none ∧
    (WatchAll onceLayer sampleWatcher "/d" unreadableTree).1.calls =
      [LayerCall.start "/d", LayerCall.start "/d/a", LayerCall.start "/d/b"] :=
  have h := (C10_WatchAll_stops_at_first_watch_failure pickyLayer sampleWatcher "/d"
    unreadableTree).1 ["/d", "/d/a"] [] "/d/b" "no space left on device" (by decide)
    (by
      intro a q b hab
      have hq : q ∈ ["/d", "/d/a"] := by rw [hab]; simp
      simp only [List.mem_cons, List.mem_singleton, List.not_mem_nil, or_false] at hq
      rcases hq with rfl | rfl <;> simp [pickyLayer])
    (by decide)
  have h2 := (C10_WatchAll_stops_at_first_watch_failure onceLayer sampleWatcher "/d"
    unreadableTree).2.2
    (by
      intro a q b hab
      have hab2 : ["/d", "/d/a", "/d/b"] = a ++ q :: b := hab
      rcases a with _ | ⟨a0, _ | ⟨a1, _ | ⟨a2, a3⟩⟩⟩
      · simp at hab2
        obtain ⟨rfl, -⟩ := hab2
        decide
      · simp at hab2
        obtain ⟨rfl, rfl, -⟩ := hab2
        decide
      · simp at hab2
        obtain ⟨rfl, rfl, rfl, -⟩ := hab2
        decide
      · simp at hab2)
  ⟨by decide, h.1, h.2.2.1 "/d/a" (by decide), h.2.2.2 "/tmp/x" (by decide), h2.1,
    h2.2.trans (by decide)⟩

/-- C11: let the traversal of the subtree rooted at `P` succeed (`os.Lstat`
succeeds on `P` and no directory listing fails) and let every start request
of the watch layer succeed. Then `WatchAll(P)` returns no error; the registry
maps `P` and every path of the subtree to `ALL_FLAGS`; one start request has
been made per path of the subtree, in traversal order, so exactly one for
each path when the paths are distinct; and every path outside the subtree
keeps its earlier entry. -/
theorem C11_WatchAll_success (L : WatchLayer) (w : Watcher) (P : String) (info : FileInfo)
    (htrav : info.readable = true)
    (hok : ∀ a q b, subtreePaths P info = a ++ q :: b →
      L.watchAllEvents (w.calls ++ a.map LayerCall.start) q = none) :
    (WatchAll L w P (.ok info)).2 = none ∧
    (WatchAll L w P (.ok info)).1.fsnFlags P = some ALL_FLAGS ∧
    (∀ q, q ∈ subtreePaths P info → (WatchAll L w P (.ok info)).1.fsnFlags q = some ALL_FLAGS) ∧
    (WatchAll L w P (.ok info)).1.calls =
      w.calls ++ (subtreePaths P info).map LayerCall.start ∧
    ((subtreePaths P info).Nodup → ∀ q, q ∈ subtreePaths P info →
      (WatchAll L w P (.ok info)).1.calls.count (LayerCall.start q) =
        w.calls.count (LayerCall.start q) + 1) ∧
    (∀ q, q ∉ subtreePaths P info → (WatchAll L w P (.ok info)).1.fsnFlags q = w.fsnFlags q) := by
  have horder : WalkOrder P (.ok info) = subtreePaths P info :=
    walkOrder_of_readable P info htrav
  rw [WatchAll_eq_watchEach, horder, watchEach_ok L _ w hok]
  refine ⟨rfl, ?_, fun q hq => ?_, rfl, fun hnd q hq => ?_, fun q hq => ?_⟩
  · simp only [watched, if_pos (mem_subtreePaths_root P info)]
  · simp only [watched, if_pos hq]
  · have hinj : Function.Injective LayerCall.start := fun a b hab => by
      injection hab
    simp only [watched, List.count_append]
    rw [List.count_map_of_injective _ _ hinj, List.count_eq_one_of_mem hnd hq]
  · simp only [watched, if_neg hq]

theorem C11_WatchAll_success_witness :
    smallTree.readable = true ∧
      (WatchAll okLayer sampleWatcher "/d" (.ok smallTree)).2 = none ∧
      (WatchAll okLayer sampleWatcher "/d" (.ok smallTree)).1.calls =
        [LayerCall.start "/d", LayerCall.start "/d/b", LayerCall.start "/d/c",
          LayerCall.start "/d/c/e"] ∧
      (WatchAll okLayer sampleWatcher "/d" (.ok smallTree)).1.fsnFlags "/d/c/e" =
        some ALL_FLAGS ∧
      (WatchAll okLayer sampleWatcher "/d" (.ok smallTree)).1.fsnFlags "/tmp/x" = some 6 ∧
      (WatchAll okLayer sampleWatcher "/d" (.ok smallTree)).1.calls.count
        (LayerCall.start "/d/b") = sampleWatcher.calls.count (LayerCall.start "/d/b") + 1 :=
  have h := C11_WatchAll_success okLayer sampleWatcher "/d" smallTree (by decide)
    (fun _ _ _ _ => rfl)
  ⟨by decide, h.1, h.2.2.2.1.trans (by decide), h.2.2.1 "/d/c/e" (by decide),
    (h.2.2.2.2.2 "/tmp/x" (by decide)).trans (by decide),
    h.2.2.2.2.1 (by decide) "/d/b" (by decide)⟩

/-- C12: the category constants are `CREATE = 1`, `MODIFY = 2`, `DELETE = 4`,
`RENAME = 8`, `FILE_WRITE = 16`; each is a single bit (bits 0 to 4), any two
of them have no bit in common, and `ALL_FLAGS` is their bitwise OR, 31. -/
theorem C12_category_constants :
    (CREATE = 1 ∧ MODIFY = 2 ∧ DELETE = 4 ∧ RENAME = 8 ∧ FILE_WRITE = 16) ∧
    (CREATE = 2 ^ 0 ∧ MODIFY = 2 ^ 1 ∧ DELETE = 2 ^ 2 ∧ RENAME = 2 ^ 3 ∧
      FILE_WRITE = 2 ^ 4) ∧
    (CREATE &&& MODIFY = 0 ∧ CREATE &&& DELETE = 0 ∧ CREATE &&& RENAME = 0 ∧
      CREATE &&& FILE_WRITE = 0 ∧ MODIFY &&& DELETE = 0 ∧ MODIFY &&& RENAME = 0 ∧
      MODIFY &&& FILE_WRITE = 0 ∧ DELETE &&& RENAME = 0 ∧ DELETE &&& FILE_WRITE = 0 ∧
      RENAME &&& FILE_WRITE = 0) ∧
    ALL_FLAGS = CREATE ||| MODIFY ||| DELETE ||| RENAME ||| FILE_WRITE ∧
    ALL_FLAGS = 31 := by
  decide

/-- C13: one iteration of `purgeEvents` on an event `E` leaves the entry of
every path other than that of `E` unchanged; it adds no entry and changes no
stored mask (an entry present afterwards was present before with the same
mask); when `E` is not a deletion the whole registry is unchanged, and when it
is a deletion the entry of the path of `E` is removed and nothing else
changes. -/
theorem C13_purgeStep_registry_frame (w : Watcher) (E : FileEvent) :
    (∀ Q : String, Q ≠ E.Name → (purgeStep w E).fsnFlags Q = w.fsnFlags Q) ∧
    (∀ (Q : String) (m : Nat), (purgeStep w E).fsnFlags Q = some m → w.fsnFlags Q = some m) ∧
    (E.IsDelete = false → (purgeStep w E).fsnFlags = w.fsnFlags) ∧
    (E.IsDelete = true → (purgeStep w E).fsnFlags E.Name = none ∧
      ∀ Q : String, Q ≠ E.Name → (purgeStep w E).fsnFlags Q = w.fsnFlags Q) := by
  rw [purgeStep_fsnFlags]
  cases hd : E.IsDelete
  · simp
  · simp only [if_true, Registry.delete]
    refine ⟨fun Q hQ => by simp [hQ], fun Q m => ?_, by simp,
      fun _ => ⟨by simp, fun Q hQ => by simp [hQ]⟩⟩
    by_cases hQ : Q = E.Name <;> simp [hQ]

theorem C13_purgeStep_registry_frame_witness :
    "/tmp/z" ≠ deleteEvent.Name ∧
      (purgeStep sampleWatcher deleteEvent).fsnFlags "/tmp/z" = some 0 ∧
      deleteEvent.IsDelete = true ∧
      (purgeStep sampleWatcher deleteEvent).fsnFlags deleteEvent.Name = none :=
  ⟨by decide,
    ((C13_purgeStep_registry_frame sampleWatcher deleteEvent).1 "/tmp/z" (by decide)).trans
      (by decide),
    by decide,
    ((C13_purgeStep_registry_frame sampleWatcher deleteEvent).2.2.2 (by decide)).1⟩

/-- C14: removal from the registry is idempotent. `RemoveWatch(P)` on a
registry without entry for `P` leaves the registry unchanged; `RemoveWatch(P)`
twice leaves the same registry as `RemoveWatch(P)` once; and an iteration of
`purgeEvents` on a deletion event whose path has no entry completes, leaves
the registry unchanged and sends nothing. -/
theorem C14_removal_idempotent (L : WatchLayer) (w : Watcher) (P : String)
    (E : FileEvent) :
    (w.fsnFlags P = none → (RemoveWatch L w P).1.fsnFlags = w.fsnFlags) ∧
    (RemoveWatch L (RemoveWatch L w P).1 P).1.fsnFlags = (RemoveWatch L w P).1.fsnFlags ∧
    (E.IsDelete = true → w.fsnFlags E.Name = none →
      (purgeStep w E).fsnFlags = w.fsnFlags ∧ (purgeStep w E).Event = w.Event) := by
  refine ⟨fun h => ?_, ?_, fun hd h => ⟨?_, ?_⟩⟩
  · funext Q
    by_cases hQ : Q = P <;> simp [RemoveWatch, Registry.delete, hQ, h]
  · funext Q
    by_cases hQ : Q = P <;> simp [RemoveWatch, Registry.delete, hQ]
  · rw [purgeStep_fsnFlags, hd]
    funext Q
    by_cases hQ : Q = E.Name <;> simp [Registry.delete, hQ, h]
  · exact purgeStep_Event_of_get_zero w E (Registry.get_of_none _ _ h)

theorem C14_removal_idempotent_witness :
    sampleWatcher.fsnFlags "/tmp/y" = none ∧
      (RemoveWatch failLayer sampleWatcher "/tmp/y").1.fsnFlags = sampleWatcher.fsnFlags ∧
      strayEvent.IsDelete = true ∧ sampleWatcher.fsnFlags strayEvent.Name = none ∧
      (purgeStep sampleWatcher strayEvent).fsnFlags = sampleWatcher.fsnFlags :=
  ⟨by decide,
    (C14_removal_idempotent failLayer sampleWatcher "/tmp/y" strayEvent).1 (by decide),
    by decide, by decide,
    ((C14_removal_idempotent failLayer sampleWatcher "/tmp/y" strayEvent).2.2 (by decide)
      (by decide)).1⟩

/-- C15: for an event none of whose five predicates holds, the method
`FileEvent.String` does not fail: the category string is empty, the slice
`events[1:]` is skipped (taken on the empty string it would be out of range),
and the result is the quoted path followed by a colon, one space and the
empty category list. -/
theorem C15_String_without_category (esc : Char → String) (e : FileEvent)
    (h : e.IsCreate = false ∧ e.IsModify = false ∧ e.IsDelete = false ∧
      e.IsRename = false ∧ e.IsFileWrite = false) :
    StringChecked esc e = some (quote esc e.Name ++ ": " ++ "") ∧
    e.String esc = quote esc e.Name ++ ": " ++ "" ∧
    sliceFrom1 "" = none := by
  rcases e with ⟨n, c, m, d, r, f⟩
  obtain ⟨h1, h2, h3, h4, h5⟩ := h
  simp only at h1 h2 h3 h4 h5
  subst h1 h2 h3 h4 h5
  exact ⟨rfl, rfl, by decide⟩

theorem C15_String_without_category_witness :
    (blankEvent.IsCreate = false ∧ blankEvent.IsModify = false ∧
        blankEvent.IsDelete = false ∧ blankEvent.IsRename = false ∧
        blankEvent.IsFileWrite = false) ∧
      StringChecked (fun _ => "") blankEvent = some "\"/tmp/x\": " :=
  ⟨by decide,
    (C15_String_without_category (fun _ => "") blankEvent (by decide)).1.trans (by decide)⟩

/-- C16: in every run of `purgeEvents`, in program order, the lock of the
registry is taken only when free, exactly one map read or one map delete is
made while it is held, and it is released right after; no send on the public
channel, nor its close, happens while the lock is held (a send made while the
lock is held breaks this discipline). Each iteration
performs `Lock`, the mask lookup, `Unlock`, then the send if there is one, then
`Lock`, the deletion, `Unlock` if the event is a deletion: every send comes
after the unlock of the lookup and before the lock of the deletion. The
actions are those of the function `purgeEvents`: same final watcher, same
sends. -/
theorem C16_lock_not_held_across_send (w : Watcher) (evs : List FileEvent) :
    LockState.free.run (purgeEventsLocked w evs).2 = some LockState.free ∧
    (∀ (p : String) (ev : FileEvent),
      LockState.free.run [Action.lock, Action.mapRead p, Action.send ev, Action.unlock] =
        none) ∧
    (∀ (w' : Watcher) (ev : FileEvent),
      (purgeStepLocked w' ev).2 =
        [Action.lock, Action.mapRead ev.Name, Action.unlock] ++
          (if (purgeStep w' ev).Event = w'.Event ++ [ChanOp.send ev] then [Action.send ev]
            else []) ++
          (if ev.IsDelete then [Action.lock, Action.mapDelete ev.Name, Action.unlock]
            else [])) ∧
    (purgeEventsLocked w evs).1 = purgeEvents w evs ∧
    w.Event ++ (purgeEventsLocked w evs).2.filterMap Action.toChanOp =
      (purgeEvents w evs).Event := by
  refine ⟨?_, fun p ev => rfl, fun w' ev => ?_, ?_, ?_⟩
  · simp only [purgeEventsLocked]
    rw [LockState.run_append, purgeLoopLocked_run]
    rfl
  · rw [purgeStepLocked_eq]
    have hf := Forwards_iff w' ev
    unfold Forwards at hf
    by_cases hr : Requested (w'.fsnFlags.get ev.Name) ev
    · rw [if_pos hr, if_pos (hf.mpr hr)]
    · rw [if_neg hr, if_neg (fun hc => hr (hf.mp hc))]
  · simp only [purgeEventsLocked, purgeEvents, purgeLoopLocked_fst]
  · simp only [purgeEventsLocked, purgeEvents, List.filterMap_append]
    rw [← List.append_assoc, purgeLoopLocked_sends]
    simp [Action.toChanOp]

/-- C17: let `purgeEvents` process a finite sequence of raw events from a
registry `R`, with no registration call in between. The final registry is `R`
without the paths of the deletion events of the sequence, every other entry
being kept. The events sent are, in order, exactly those events of the
sequence whose categories the mask that `R` holds for their path requests and
before which no event of the sequence on the same path was a deletion. -/
theorem C17_purgeEvents_from_initial_registry (w : Watcher) (evs : List FileEvent) :
    (∀ q : String, (∃ e ∈ evs, e.Name = q ∧ e.IsDelete = true) →
      (purgeEvents w evs).fsnFlags q = none) ∧
    (∀ q : String, (¬ ∃ e ∈ evs, e.Name = q ∧ e.IsDelete = true) →
      (purgeEvents w evs).fsnFlags q = w.fsnFlags q) ∧
    (purgeEvents w evs).Event = w.Event ++
      ((evs.enum.filter (fun (ie : Nat × FileEvent) =>
        decide (Requested (w.fsnFlags.get ie.2.Name) ie.2 ∧
          ∀ e ∈ evs.take ie.1, ¬ (e.Name = ie.2.Name ∧ e.IsDelete = true)))).map
            (fun ie => ChanOp.send ie.2)) ++ [ChanOp.close] := by
  have hreg : ∀ q, (purgeEvents w evs).fsnFlags q = (purgeLoop w evs).fsnFlags q :=
    fun q => rfl
  refine ⟨fun q hq => ?_, fun q hq => ?_, ?_⟩
  · rw [hreg, purgeLoop_fsnFlags, if_pos]
    simpa using hq
  · rw [hreg, purgeLoop_fsnFlags, if_neg]
    simpa using hq
  · have hfil : evs.enum.filter (fun (ie : Nat × FileEvent) =>
        decide (Requested (w.fsnFlags.get ie.2.Name) ie.2 ∧
          ∀ e ∈ evs.take ie.1, ¬ (e.Name = ie.2.Name ∧ e.IsDelete = true))) =
        evs.enum.filter (fun ie =>
          decide (Requested ((purgeLoop w (evs.take ie.1)).fsnFlags.get ie.2.Name) ie.2)) := by
      apply List.filter_congr
      intro ie _
      rw [purgeLoop_get]
      by_cases hdel : (evs.take ie.1).any (fun e => decide (e.Name = ie.2.Name) && e.IsDelete)
          = true
      · have hex : ¬ ∀ e ∈ evs.take ie.1, ¬ (e.Name = ie.2.Name ∧ e.IsDelete = true) := by
          simpa using hdel
        simp only [hdel, if_true]
        exact decide_eq_decide.mpr
          ⟨fun h => absurd h.2 hex, fun h => absurd h (not_Requested_zero ie.2)⟩
      · have hall : ∀ e ∈ evs.take ie.1, ¬ (e.Name = ie.2.Name ∧ e.IsDelete = true) := by
          simpa using hdel
        simp only [hdel, Bool.false_eq_true, if_false]
        exact decide_eq_decide.mpr ⟨fun h => h.1, fun h => ⟨h, hall⟩⟩
    rw [hfil]
    simp only [purgeEvents, purgeLoop_Event]

theorem C17_purgeEvents_from_initial_registry_witness :
    (∃ e ∈ [writeEvent, deleteEvent, writeEvent], e.Name = "/tmp/x" ∧ e.IsDelete = true) ∧
      (purgeEvents sampleWatcher [writeEvent, deleteEvent, writeEvent]).fsnFlags "/tmp/x" =
        none ∧
      (purgeEvents sampleWatcher [writeEvent, deleteEvent, writeEvent]).Event =
        [ChanOp.send writeEvent, ChanOp.send deleteEvent, ChanOp.close] :=
  ⟨by decide,
    (C17_purgeEvents_from_initial_registry sampleWatcher
      [writeEvent, deleteEvent, writeEvent]).1 "/tmp/x" (by decide),
    (C17_purgeEvents_from_initial_registry sampleWatcher
      [writeEvent, deleteEvent, writeEvent]).2.2.trans (by decide)⟩

/-- C18: for an event `E` on a path registered with `ALL_FLAGS`, as `Watch`
registers it, an iteration of `purgeEvents` sends `E` if and only if at least
one of the five predicates of `E` holds, and sends nothing otherwise; an event
for which none of the five predicates holds is not sent, whatever the
registry and so under any mask. -/
theorem C18_ALL_FLAGS_forwards_any_category (L : WatchLayer) (w : Watcher) (E : FileEvent) :
    (w.fsnFlags E.Name = some ALL_FLAGS →
      (Forwards w E ↔
        (E.IsCreate = true ∨ E.IsModify = true ∨ E.IsDelete = true ∨ E.IsRename = true ∨
          E.IsFileWrite = true)) ∧
      (¬ Forwards w E → (purgeStep w E).Event = w.Event)) ∧
    (Forwards (Watch L w E.Name).1 E ↔
      (E.IsCreate = true ∨ E.IsModify = true ∨ E.IsDelete = true ∨ E.IsRename = true ∨
        E.IsFileWrite = true)) ∧
    ((E.IsCreate = false ∧ E.IsModify = false ∧ E.IsDelete = false ∧ E.IsRename = false ∧
        E.IsFileWrite = false) →
      ∀ w' : Watcher, ¬ Forwards w' E ∧ (purgeStep w' E).Event = w'.Event) := by
  refine ⟨fun h => ⟨?_, purgeStep_Event_of_not_Forwards w E⟩, ?_, fun hb w' => ?_⟩
  · rw [Forwards_iff, Registry.get_of_some _ _ _ h, Requested_ALL_FLAGS]
  · rw [Forwards_iff, Registry.get_of_some _ _ ALL_FLAGS (by simp [Watch, Registry.set]),
      Requested_ALL_FLAGS]
  · have hn : ¬ Forwards w' E := by
      rw [Forwards_iff]
      exact not_Requested_of_blank _ E hb
    exact ⟨hn, purgeStep_Event_of_not_Forwards w' E hn⟩

theorem C18_ALL_FLAGS_forwards_any_category_witness :
    (Watch okLayer sampleWatcher renameEvent.Name).1.fsnFlags renameEvent.Name =
        some ALL_FLAGS ∧
      Forwards (Watch okLayer sampleWatcher renameEvent.Name).1 renameEvent ∧
      (blankEvent.IsCreate = false ∧ blankEvent.IsModify = false ∧
        blankEvent.IsDelete = false ∧ blankEvent.IsRename = false ∧
        blankEvent.IsFileWrite = false) ∧
      ¬ Forwards (Watch okLayer sampleWatcher "/tmp/x").1 blankEvent :=
  ⟨by decide,
    ((C18_ALL_FLAGS_forwards_any_category okLayer
      (Watch okLayer sampleWatcher renameEvent.Name).1 renameEvent).1 (by decide)).1.mpr
      (by decide),
    by decide,
    ((C18_ALL_FLAGS_forwards_any_category okLayer sampleWatcher blankEvent).2.2 (by decide)
      (Watch okLayer sampleWatcher "/tmp/x").1).1⟩

/-- C19: the filter is additive in the mask. For an event `E` and masks `M1`
and `M2`, an iteration of `purgeEvents` sends `E` when its path holds
`M1 | M2` if and only if it sends `E` when the path holds `M1` or sends it
when the path holds `M2`; hence an event sent under `M1` is still sent under
the larger mask `M1 | M2`. -/
theorem C19_filter_additive (w1 w2 w12 : Watcher) (E : FileEvent) (M1 M2 : Nat)
    (h1 : w1.fsnFlags E.Name = some M1) (h2 : w2.fsnFlags E.Name = some M2)
    (h12 : w12.fsnFlags E.Name = some (M1 ||| M2)) :
    (Forwards w12 E ↔ (Forwards w1 E ∨ Forwards w2 E)) ∧
    (Forwards w1 E → Forwards w12 E) := by
  have key : Forwards w12 E ↔ (Forwards w1 E ∨ Forwards w2 E) := by
    rw [Forwards_iff, Forwards_iff, Forwards_iff, Registry.get_of_some _ _ _ h1,
      Registry.get_of_some _ _ _ h2, Registry.get_of_some _ _ _ h12, Requested_or]
  exact ⟨key, fun hf => key.mpr (Or.inl hf)⟩

theorem C19_filter_additive_witness :
    (WatchFlags okLayer newWatcher "/tmp/x" 2).1.fsnFlags writeEvent.Name = some 2 ∧
      (WatchFlags okLayer newWatcher "/tmp/x" 4).1.fsnFlags writeEvent.Name = some 4 ∧
      sampleWatcher.fsnFlags writeEvent.Name = some (2 ||| 4) ∧
      Forwards sampleWatcher writeEvent :=
  ⟨by decide, by decide, by decide,
    (C19_filter_additive (WatchFlags okLayer newWatcher "/tmp/x" 2).1
      (WatchFlags okLayer newWatcher "/tmp/x" 4).1 sampleWatcher writeEvent 2 4
      (by decide) (by decide) (by decide)).2 (by decide)⟩

/-- C20: for every mask `M` and event `E`, an iteration of `purgeEvents` sends
`E` when its path holds `M` if and only if it sends `E` when the path holds
`M & ALL_FLAGS`, in particular after `WatchFlags` has registered either mask:
the bits of the mask above `FILE_WRITE` are ignored. A mask made only of such
bits, that is with `M & ALL_FLAGS = 0`, sends nothing. -/
theorem C20_high_bits_ignored (L : WatchLayer) (w wm : Watcher) (E : FileEvent) (M : Nat)
    (h : w.fsnFlags E.Name = some M) (hm : wm.fsnFlags E.Name = some (M &&& ALL_FLAGS)) :
    (Forwards w E ↔ Forwards wm E) ∧
    (Forwards (WatchFlags L w E.Name M).1 E ↔
      Forwards (WatchFlags L w E.Name (M &&& ALL_FLAGS)).1 E) ∧
    (M &&& ALL_FLAGS = 0 → ¬ Forwards w E ∧ (purgeStep w E).Event = w.Event) := by
  have hw : ∀ m : Nat, (WatchFlags L w E.Name m).1.fsnFlags E.Name = some m := by
    intro m; simp [WatchFlags, Registry.set]
  refine ⟨?_, ?_, fun h0 => ?_⟩
  · rw [Forwards_iff, Forwards_iff, Registry.get_of_some _ _ _ h,
      Registry.get_of_some _ _ _ hm, Requested_and_ALL_FLAGS]
  · rw [Forwards_iff, Forwards_iff, Registry.get_of_some _ _ _ (hw M),
      Registry.get_of_some _ _ _ (hw (M &&& ALL_FLAGS)), Requested_and_ALL_FLAGS]
  · have hn : ¬ Forwards w E := by
      rw [Forwards_iff, Registry.get_of_some _ _ _ h, ← Requested_and_ALL_FLAGS, h0]
      exact not_Requested_zero E
    exact ⟨hn, purgeStep_Event_of_not_Forwards w E hn⟩

theorem C20_high_bits_ignored_witness :
    (WatchFlags okLayer newWatcher "/tmp/y" 96).1.fsnFlags strayEvent.Name = some 96 ∧
      (WatchFlags okLayer newWatcher "/tmp/y" 0).1.fsnFlags strayEvent.Name =
        some (96 &&& ALL_FLAGS) ∧
      96 &&& ALL_FLAGS = 0 ∧
      ¬ Forwards (WatchFlags okLayer newWatcher "/tmp/y" 96).1 strayEvent :=
  ⟨by decide, by decide, by decide,
    ((C20_high_bits_ignored okLayer (WatchFlags okLayer newWatcher "/tmp/y" 96).1
      (WatchFlags okLayer newWatcher "/tmp/y" 0).1 strayEvent 96 (by decide) (by decide)).2.2
      (by decide)).1⟩

end Fsnotify2
